import Mathlib

/-!
The package `barely`: a one-line status bar.

A shallow embedding of `barely.go` (package `barely`): the `StatusBar` type with
its operations `NewStatusBar`, `SetWidth`, `Lock`, `Unlock`, `SetLock`,
`SetStatus`, `Render`, `Clear`, and the helpers `graphicLength` and `trimTo`.

Go strings are byte sequences; `range` over a string, the conversion
`[]rune(str)` and the conversion `string(runes)` go through UTF-8, so the
embedding carries the runtime's decoder and encoder.  The template engine and
the writer are collaborators outside the package: a template is a function from
the payload to text or an error, a writer accepts a buffer or rejects it.

Each operation is given twice: as a function from the bar before the call to
the bar after it, and step by step on a `Machine` that records every operation
on the locker, every read and assignment of a field, the execution of the
template and every call of the writer, in the order of the statements of the
source.  The second is proved to leave what the first leaves.
-/

namespace Barely

/-! ## Strings, runes and UTF-8 -/

/-- A Go `byte`. -/
abbrev Byte := Fin 256

/-- A Go `string`: an immutable sequence of bytes, not necessarily valid UTF-8. -/
abbrev GoString := List Byte

/-- A Go `rune`; the decoder only produces values up to `0x10FFFF`. -/
abbrev Rune := Nat

/-- The replacement rune `U+FFFD` the decoder yields for a byte that starts no
valid encoding. -/
def runeError : Rune := 0xFFFD

/-- Continuation byte test of the decoder: `locb <= b && b <= hicb`. -/
def isCont (b : Byte) : Bool := 0x80 ≤ b.val && b.val ≤ 0xBF

/-- One step of `for _, r := range str` (also of `[]rune(str)`): the rune at the
head of a non-empty string and the number of bytes it occupies.  Bytes below
`0x80` are their own rune; otherwise this is `runtime.decoderune`: a two, three
or four byte sequence is accepted when its continuation bytes are in
`0x80..0xBF` and the value is not overlong, not a surrogate and at most
`0x10FFFF`; anything else is `runeError` of width 1. -/
def decodeRune : GoString → Rune × Nat
  | [] => (runeError, 1)
  | b0 :: rest =>
    if b0.val < 0x80 then (b0.val, 1)
    else if 0xC0 ≤ b0.val ∧ b0.val < 0xE0 then
      match rest with
      | b1 :: _ =>
        let r := (b0.val % 32) * 64 + b1.val % 64
        if isCont b1 ∧ 0x7F < r then (r, 2) else (runeError, 1)
      | _ => (runeError, 1)
    else if 0xE0 ≤ b0.val ∧ b0.val < 0xF0 then
      match rest with
      | b1 :: b2 :: _ =>
        let r := (b0.val % 16) * 4096 + (b1.val % 64) * 64 + b2.val % 64
        if isCont b1 ∧ isCont b2 ∧ 0x7FF < r ∧ ¬ (0xD800 ≤ r ∧ r ≤ 0xDFFF) then (r, 3)
        else (runeError, 1)
      | _ => (runeError, 1)
    else if 0xF0 ≤ b0.val ∧ b0.val < 0xF8 then
      match rest with
      | b1 :: b2 :: b3 :: _ =>
        let r := (b0.val % 8) * 262144 + (b1.val % 64) * 4096 + (b2.val % 64) * 64 + b3.val % 64
        if isCont b1 ∧ isCont b2 ∧ isCont b3 ∧ 0xFFFF < r ∧ r ≤ 0x10FFFF then (r, 4)
        else (runeError, 1)
      | _ => (runeError, 1)
    else (runeError, 1)

/-- The loop of `range str` with the bytes still to skip of the rune just decoded. -/
def runesFrom : Nat → GoString → List Rune
  | _, [] => []
  | 0, b :: rest => (decodeRune (b :: rest)).1 :: runesFrom ((decodeRune (b :: rest)).2 - 1) rest
  | k + 1, _ :: rest => runesFrom k rest

/-- The conversion `[]rune(str)`, which is also the sequence of runes that
`for _, r := range str` visits. -/
def runes (str : GoString) : List Rune := runesFrom 0 str

/-- The UTF-8 encoding `runtime.encoderune` of one rune; surrogates and values
above `0x10FFFF` are written as `runeError`. -/
def encodeRune (r : Rune) : GoString :=
  if r ≤ 0x7F then [Fin.ofNat r]
  else if r ≤ 0x7FF then [Fin.ofNat (0xC0 + r / 64), Fin.ofNat (0x80 + r % 64)]
  else if 0x10FFFF < r ∨ (0xD800 ≤ r ∧ r ≤ 0xDFFF) then [0xEF, 0xBF, 0xBD]
  else if r ≤ 0xFFFF then
    [Fin.ofNat (0xE0 + r / 4096), Fin.ofNat (0x80 + (r / 64) % 64), Fin.ofNat (0x80 + r % 64)]
  else
    [Fin.ofNat (0xF0 + r / 262144), Fin.ofNat (0x80 + (r / 4096) % 64),
     Fin.ofNat (0x80 + (r / 64) % 64), Fin.ofNat (0x80 + r % 64)]

/-- The conversion `string(rs)` of a rune slice. -/
def encodeRunes (rs : List Rune) : GoString := rs.flatMap encodeRune

/-- The library predicate `utf8.ValidRune`: at most `0x10FFFF` and no surrogate. -/
def ValidRune (r : Nat) : Bool := r ≤ 0x10FFFF && !(0xD800 ≤ r && r ≤ 0xDFFF)

/-- The library predicate `utf8.ValidString`, through the codec: a text is valid
UTF-8 when it is the encoding of the runes it decodes to (an invalid byte is read
as `runeError`, whose encoding is three bytes long). -/
def ValidString (t : GoString) : Bool := encodeRunes (runes t) == t

/-- A Go string literal: the UTF-8 bytes of its characters. -/
def lit (s : String) : GoString := encodeRunes (s.toList.map Char.toNat)

/-! ## Width of the text -/

/-- The part of `unicode.IsGraphic` that the package's source does not fix: for a
rune above Latin-1, whether the toolchain's Unicode tables put it in one of the
categories L, M, N, P, S, Zs. -/
abbrev GraphicTable := Rune → Bool

/-- The library predicate `unicode.IsGraphic`: a Latin-1 rune is graphic when it
is printable or a space (`0x20..0x7E` and `0xA0..0xFF` without the soft hyphen
`0xAD`), any other rune when the Unicode tables say so. -/
def IsGraphic (tbl : GraphicTable) (r : Rune) : Bool :=
  if r ≤ 0xFF then (0x20 ≤ r && r ≤ 0x7E) || (0xA0 ≤ r && r != 0xAD) else tbl r

/-- The function `graphicLength`: the counter `c` goes up by one for every rune
of `str` that is graphic. -/
def graphicLength (tbl : GraphicTable) (str : GoString) : Nat :=
  (runes str).foldl (fun c r => if IsGraphic tbl r then c + 1 else c) 0

/-- The literal `"…"`, one rune `U+2026`, three bytes. -/
def ellipsis : GoString := [0xE2, 0x80, 0xA6]

/-- The function `trimTo`; `none` is the run-time panic of the slice expression
`orig[:l-3]` (slice bounds out of range).  A text of fewer than four runes is
returned as it is.  The bound is checked against the length of `orig`: `Render`
only calls `trimTo` with `l` below the number of runes, so the spare capacity
that the conversion may have allocated never comes into play. -/
def trimTo (str : GoString) (l : Int) : Option GoString :=
  let orig := runes str
  if orig.length < 4 then some str
  else if l - 3 < 0 ∨ (orig.length : Int) < l - 3 then none
  else some (encodeRunes (orig.take (l - 3).toNat) ++ ellipsis)

/-! ## Escape sequences and trailing blanks -/

/-- The byte `ESC`, written `\x1b` in the source. -/
def ESC : Byte := 0x1B

/-- The byte `m` that ends an escape sequence. -/
def letterM : Byte := 0x6D

/-- The carriage return `\r`. -/
def CR : Byte := 0x0D

/-- The space character. -/
def SP : Byte := 0x20

/-- The tab character `\t`. -/
def TAB : Byte := 0x09

/-- The newline character `\n`. -/
def LF : Byte := 0x0A

/-- The cutset `" \r\t"` of `Clear`. -/
def blanks : GoString := [SP, CR, TAB]

/-- Position of the first `m` of a string. -/
def findM : GoString → Option Nat
  | [] => none
  | b :: rest => if b = letterM then some 0 else (findM rest).map (· + 1)

/-- The pattern `\x1b[^m]+m` of `escapeSequenceRegexp`, anchored at the start of
the string: the length of the match, when there is one.  After `ESC` comes at
least one character other than `m`, and the run `[^m]+` cannot pass an `m`, so
the match ends at the first `m` behind it.  `ESC` and `m` are single bytes that
never occur inside the encoding of another code point, and `[^m]` accepts every
code point (the replacement rune of an invalid byte included), so the matches
over code points are the matches over bytes. -/
def escapeSequenceRegexp : GoString → Option Nat
  | e :: c :: rest => if e = ESC ∧ c ≠ letterM then (findM rest).map (· + 3) else none
  | _ => none

/-- The scan of `ReplaceAllLiteralString` with the bytes still to drop of the
match found last. -/
def replaceAllFrom : Nat → GoString → GoString
  | _, [] => []
  | 0, b :: rest =>
    match escapeSequenceRegexp (b :: rest) with
    | some n => replaceAllFrom (n - 1) rest
    | none => b :: replaceAllFrom 0 rest
  | k + 1, _ :: rest => replaceAllFrom k rest

/-- The call `escapeSequenceRegexp.ReplaceAllLiteralString(src, "")`: every
leftmost non-overlapping match is removed, the text between matches is copied. -/
def ReplaceAllLiteralString (src : GoString) : GoString := replaceAllFrom 0 src

/-- The call `strings.TrimRight(s, cutset)` for a cutset of single-byte
characters: the trailing bytes that belong to the cutset are removed. -/
def TrimRight (s cutset : GoString) : GoString := s.rdropWhile (fun b => decide (b ∈ cutset))

/-! ## Collaborators -/

/-- A template of `text/template` seen from the bar: executing it on a payload
gives the text written to the buffer, or the error of `Execute`. -/
abbrev Template (α : Type) := α → Except String GoString

/-- An `io.Writer`: the bytes it has accepted, the error with which it rejects a
write, if it does, and the number of calls of `Write` it has received. -/
structure Writer where
  written : GoString
  failure : Option String
  calls : Nat
  deriving DecidableEq

/-- One call of `Write` with the buffer `p`: accepted whole, or rejected. -/
def Writer.Write (w : Writer) (p : GoString) : Writer × Option String :=
  match w.failure with
  | none => ({ w with written := w.written ++ p, calls := w.calls + 1 }, none)
  | some e => ({ w with calls := w.calls + 1 }, some e)

/-- A `sync.Locker` supplied by the caller, seen through the calls it got. -/
structure Locker where
  locks : Nat
  unlocks : Nat

/-- The locker, if there is one, has been unlocked as often as locked. -/
def balanced (locker : Option Locker) : Bool :=
  match locker with
  | some l => l.locks == l.unlocks
  | none => true

/-! ## The status bar -/

/-- The struct `StatusBar`; `status` is `none` for the nil interface value. -/
structure StatusBar (α : Type) where
  Locker : Option Locker
  format : Template α
  last : GoString
  status : Option α
  width : Int

/-- The constructor `NewStatusBar`: every field but the template is zero. -/
def NewStatusBar {α : Type} (format : Template α) : StatusBar α :=
  { Locker := none, format := format, last := [], status := none, width := 0 }

/-- The method `Lock`: locks the locker when one is set. -/
def StatusBar.Lock {α : Type} (bar : StatusBar α) : StatusBar α :=
  match bar.Locker with
  | some l => { bar with Locker := some { l with locks := l.locks + 1 } }
  | none => bar

/-- The method `Unlock`: unlocks the locker when one is set. -/
def StatusBar.Unlock {α : Type} (bar : StatusBar α) : StatusBar α :=
  match bar.Locker with
  | some l => { bar with Locker := some { l with unlocks := l.unlocks + 1 } }
  | none => bar

/-- The method `SetLock`. -/
def StatusBar.SetLock {α : Type} (bar : StatusBar α) (lock : Barely.Locker) : StatusBar α :=
  { bar with Locker := some lock }

/-- The method `SetWidth`. -/
def StatusBar.SetWidth {α : Type} (bar : StatusBar α) (w : Int) : StatusBar α :=
  ({ bar.Lock with width := w }).Unlock

/-- The method `SetStatus`; the argument `none` is a nil `data`. -/
def StatusBar.SetStatus {α : Type} (bar : StatusBar α) (data : Option α) : StatusBar α :=
  ({ bar.Lock with status := data }).Unlock

/-- How a call of `Render` ends: it returns nil, it returns an error with the
given message, or it panics. -/
inductive Outcome where
  | ok
  | error (msg : String)
  | panic
  deriving DecidableEq, Repr

/-- What a call of `Render` leaves behind: the bar, the writer and the way the
call ended. -/
structure Rendered (α : Type) where
  bar : StatusBar α
  writer : Writer
  result : Outcome

/-- The method `Render`.  The deferred `Unlock` runs on every way out, the panic
of `trimTo` included. -/
def StatusBar.Render {α : Type} (tbl : GraphicTable) (bar : StatusBar α) (writer : Writer) :
    Rendered α :=
  let bar := bar.Lock
  match bar.status with
  | none => ⟨bar.Unlock, writer, .ok⟩
  | some status =>
    match bar.format status with
    | .error err => ⟨bar.Unlock, writer, .error ("error during rendering status bar: " ++ err)⟩
    | .ok str =>
      let text : Option GoString :=
        if bar.width > 0 ∧ (graphicLength tbl str : Int) > bar.width then trimTo str bar.width
        else some str
      match text with
      | none => ⟨bar.Unlock, writer, .panic⟩
      | some text =>
        let buffer := text ++ [CR]
        let bar := { bar with last := ReplaceAllLiteralString buffer }
        match writer.Write buffer with
        | (writer, some err) => ⟨bar.Unlock, writer, .error ("can't write status bar: " ++ err)⟩
        | (writer, none) => ⟨bar.Unlock, writer, .ok⟩

/-- The method `Clear`: one write of the blanks and the carriage return, whose
error is dropped, then `last` is emptied. -/
def StatusBar.Clear {α : Type} (bar : StatusBar α) (writer : Writer) : StatusBar α × Writer :=
  let bar := bar.Lock
  let writer := (writer.Write
    (List.replicate (TrimRight bar.last blanks).length SP ++ [CR])).1
  let bar := { bar with last := [] }
  (bar.Unlock, writer)

/-! ## The operations step by step -/

/-- The data fields of the struct `StatusBar`, which the lock guards. -/
inductive Field where
  | format
  | last
  | status
  | width
  deriving DecidableEq, Repr

/-- What a call does, one step after the other: `bar.Locker.Lock()`,
`bar.Locker.Unlock()`, the read of a field, the assignment to a field, the
execution of the template, a call of `Write` on the writer. -/
inductive Event where
  | acquire
  | release
  | read (f : Field)
  | write (f : Field)
  | execute
  | output
  deriving DecidableEq, Repr

/-- The two operations on the locker. -/
def Event.isLockOp : Event → Bool
  | .acquire => true
  | .release => true
  | _ => false

/-- No step of the list is an operation on the locker. -/
def lockFree (steps : List Event) : Bool := steps.all (fun e => !e.isLockOp)

/-- The steps of a call that holds the lock throughout: the acquisition comes
first, the release comes last, and no step between them is an operation on the
locker. -/
def heldThroughout (steps : List Event) : Bool :=
  match steps with
  | .acquire :: rest => rest.getLast? == some .release && lockFree rest.dropLast
  | _ => false

/-- A bar in the middle of a call: the bar, the writer of the call and the steps
taken so far. -/
structure Machine (α : Type) where
  bar : StatusBar α
  writer : Writer
  trace : List Event

/-- The start of a call. -/
def Machine.start {α : Type} (bar : StatusBar α) (writer : Writer) : Machine α :=
  { bar := bar, writer := writer, trace := [] }

/-- The read of `bar.format`. -/
def Machine.readFormat {α : Type} (m : Machine α) : Template α × Machine α :=
  (m.bar.format, { m with trace := m.trace ++ [.read .format] })

/-- The read of `bar.last`. -/
def Machine.readLast {α : Type} (m : Machine α) : GoString × Machine α :=
  (m.bar.last, { m with trace := m.trace ++ [.read .last] })

/-- The read of `bar.status`. -/
def Machine.readStatus {α : Type} (m : Machine α) : Option α × Machine α :=
  (m.bar.status, { m with trace := m.trace ++ [.read .status] })

/-- The read of `bar.width`. -/
def Machine.readWidth {α : Type} (m : Machine α) : Int × Machine α :=
  (m.bar.width, { m with trace := m.trace ++ [.read .width] })

/-- The assignment `bar.last = x`. -/
def Machine.writeLast {α : Type} (m : Machine α) (x : GoString) : Machine α :=
  { m with bar := { m.bar with last := x }, trace := m.trace ++ [.write .last] }

/-- The assignment `bar.status = x`. -/
def Machine.writeStatus {α : Type} (m : Machine α) (x : Option α) : Machine α :=
  { m with bar := { m.bar with status := x }, trace := m.trace ++ [.write .status] }

/-- The assignment `bar.width = x`. -/
def Machine.writeWidth {α : Type} (m : Machine α) (x : Int) : Machine α :=
  { m with bar := { m.bar with width := x }, trace := m.trace ++ [.write .width] }

/-- The call `format.Execute(buffer, status)`. -/
def Machine.Execute {α : Type} (m : Machine α) (format : Template α) (status : α) :
    Except String GoString × Machine α :=
  (format status, { m with trace := m.trace ++ [.execute] })

/-- One call of `Write` on the writer of the call, with its error. -/
def Machine.Copy {α : Type} (m : Machine α) (buffer : GoString) : Option String × Machine α :=
  ((m.writer.Write buffer).2,
    { m with writer := (m.writer.Write buffer).1, trace := m.trace ++ [.output] })

/-- The method `Lock`, as a step: `bar.Locker.Lock()` when a locker is set. The
test `bar.Locker != nil` is the way to the locker and is no step of its own. -/
def Machine.Lock {α : Type} (m : Machine α) : Machine α :=
  match m.bar.Locker with
  | some _ => { m with bar := m.bar.Lock, trace := m.trace ++ [.acquire] }
  | none => m

/-- The method `Unlock`, as a step: `bar.Locker.Unlock()` when a locker is set,
behind the same test. -/
def Machine.Unlock {α : Type} (m : Machine α) : Machine α :=
  match m.bar.Locker with
  | some _ => { m with bar := m.bar.Unlock, trace := m.trace ++ [.release] }
  | none => m

/-- The method `SetWidth`, step by step. -/
def Machine.SetWidth {α : Type} (m : Machine α) (w : Int) : Machine α :=
  let m := m.Lock
  let m := m.writeWidth w
  m.Unlock

/-- The method `SetStatus`, step by step. -/
def Machine.SetStatus {α : Type} (m : Machine α) (data : Option α) : Machine α :=
  let m := m.Lock
  let m := m.writeStatus data
  m.Unlock

/-- The statements of `Render` behind `defer bar.Unlock()`, step by step. -/
def Machine.renderBody {α : Type} (tbl : GraphicTable) (m : Machine α) : Machine α × Outcome :=
  let (status, m) := m.readStatus
  match status with
  | none => (m, .ok)
  | some status =>
    let (format, m) := m.readFormat
    let (_, m) := m.readStatus
    let (executed, m) := m.Execute format status
    match executed with
    | .error err => (m, .error ("error during rendering status bar: " ++ err))
    | .ok str =>
      let (width, m) := m.readWidth
      let (wider, m) :=
        if width > 0 then
          let (width, m) := m.readWidth
          (decide ((graphicLength tbl str : Int) > width), m)
        else (false, m)
      let (text, m) :=
        if wider then
          let (width, m) := m.readWidth
          (trimTo str width, m)
        else (some str, m)
      match text with
      | none => (m, .panic)
      | some text =>
        let buffer := text ++ [CR]
        let m := m.writeLast (ReplaceAllLiteralString buffer)
        let (err, m) := m.Copy buffer
        match err with
        | some err => (m, .error ("can't write status bar: " ++ err))
        | none => (m, .ok)

/-- The method `Render`, step by step: `bar.Lock()`, the statements behind the
`defer`, and the deferred `bar.Unlock()` on every way out, the panic included. -/
def Machine.Render {α : Type} (tbl : GraphicTable) (m : Machine α) : Machine α × Outcome :=
  let m := m.Lock
  let (m, result) := m.renderBody tbl
  (m.Unlock, result)

/-- The method `Clear`, step by step. -/
def Machine.Clear {α : Type} (m : Machine α) : Machine α :=
  let m := m.Lock
  let (last, m) := m.readLast
  let (_, m) := m.Copy (List.replicate (TrimRight last blanks).length SP ++ [CR])
  let m := m.writeLast []
  m.Unlock

/-! ## Properties of the text that are claimed of the bar -/

/-- Every `ESC` of the text begins a complete escape sequence: the pattern of
`escapeSequenceRegexp` matches at each position that holds an `ESC`. -/
def escapesComplete : GoString → Bool
  | [] => true
  | b :: rest => (b != ESC || (escapeSequenceRegexp (b :: rest)).isSome) && escapesComplete rest

/-- The pattern of `escapeSequenceRegexp` matches at no position of the text. -/
def matchFree : GoString → Bool
  | [] => true
  | b :: rest => (escapeSequenceRegexp (b :: rest)).isNone && matchFree rest

/-! ## Worked examples -/

/-- The Unicode table cut down to what the examples use: above Latin-1 they
contain only the ellipsis `U+2026`, a punctuation mark, and the replacement
character `U+FFFD`, a symbol; both are graphic. -/
def exampleTable : GraphicTable := fun r => r == 0x2026 || r == 0xFFFD

/-- A writer that accepts everything and has received nothing yet. -/
def emptyWriter : Writer := { written := [], failure := none, calls := 0 }

/-- A writer that rejects every write. -/
def brokenWriter : Writer := { written := [], failure := some "closed pipe", calls := 0 }

/-- A bar of the given width whose template produces `text` for its payload. -/
def barShowing (text : GoString) (width : Int) : StatusBar Unit :=
  ((NewStatusBar (fun _ => Except.ok text)).SetWidth width).SetStatus (some ())

/-- A bar whose template fails on its payload, after an earlier line was shown. -/
def barFailing : StatusBar Unit :=
  { ((NewStatusBar (fun _ => (Except.error "no such field" : Except String GoString))).SetWidth 6).SetStatus
      (some ()) with last := lit "HEL…\r" }

/-- A locker that has not been used yet. -/
def freshLocker : Locker := { locks := 0, unlocks := 0 }

/-- The text `HELLO` between the escape sequences `ESC [31m` and `ESC [0m`. -/
def redHello : GoString := lit "\x1b[31mHELLO\x1b[0m"

/-- The text `HELLOWORLD` between the same escape sequences. -/
def redHelloWorld : GoString := lit "\x1b[31mHELLOWORLD\x1b[0m"

/-! ## The lock leaves the other fields alone -/

section Fields

variable {α : Type}

@[simp] theorem Lock_format (bar : StatusBar α) : bar.Lock.format = bar.format := by
  unfold StatusBar.Lock; split <;> rfl

@[simp] theorem Lock_last (bar : StatusBar α) : bar.Lock.last = bar.last := by
  unfold StatusBar.Lock; split <;> rfl

@[simp] theorem Lock_status (bar : StatusBar α) : bar.Lock.status = bar.status := by
  unfold StatusBar.Lock; split <;> rfl

@[simp] theorem Lock_width (bar : StatusBar α) : bar.Lock.width = bar.width := by
  unfold StatusBar.Lock; split <;> rfl

@[simp] theorem Unlock_format (bar : StatusBar α) : bar.Unlock.format = bar.format := by
  unfold StatusBar.Unlock; split <;> rfl

@[simp] theorem Unlock_last (bar : StatusBar α) : bar.Unlock.last = bar.last := by
  unfold StatusBar.Unlock; split <;> rfl

@[simp] theorem Unlock_status (bar : StatusBar α) : bar.Unlock.status = bar.status := by
  unfold StatusBar.Unlock; split <;> rfl

@[simp] theorem Unlock_width (bar : StatusBar α) : bar.Unlock.width = bar.width := by
  unfold StatusBar.Unlock; split <;> rfl

theorem Lock_Unlock_of_no_locker (bar : StatusBar α) (h : bar.Locker = none) :
    bar.Lock.Unlock = bar := by
  have h1 : bar.Lock = bar := by unfold StatusBar.Lock; rw [h]
  rw [h1]; unfold StatusBar.Unlock; rw [h]

theorem Lock_Unlock_isSome (bar : StatusBar α) :
    bar.Lock.Unlock.Locker.isSome = bar.Locker.isSome := by
  rcases bar with ⟨_ | l, f, la, st, wd⟩ <;> rfl

end Fields

/-! ## The ways out of `Render` -/

section RenderCases

variable {α : Type}

/-- The text that `Render` puts in its buffer before the carriage return: the
template output, or its truncation when the width asks for one. -/
theorem Render_of_text (tbl : GraphicTable) (bar : StatusBar α) (w : Writer) (st : α)
    (s text : GoString) (hst : bar.status = some st) (hfmt : bar.format st = .ok s)
    (htext : (if bar.width > 0 ∧ (graphicLength tbl s : Int) > bar.width then trimTo s bar.width
      else some s) = some text) :
    (bar.Render tbl w).bar = ({ bar.Lock with last := ReplaceAllLiteralString (text ++ [CR]) }).Unlock
    ∧ (bar.Render tbl w).writer = (w.Write (text ++ [CR])).1
    ∧ (bar.Render tbl w).result =
        (match (w.Write (text ++ [CR])).2 with
         | some err => Outcome.error ("can't write status bar: " ++ err)
         | none => Outcome.ok) := by
  unfold StatusBar.Render
  simp only [Lock_status, Lock_format, Lock_width, hst, hfmt, htext]
  cases hw : w.failure <;> simp [Writer.Write, hw]

theorem Render_of_panic (tbl : GraphicTable) (bar : StatusBar α) (w : Writer) (st : α)
    (s : GoString) (hst : bar.status = some st) (hfmt : bar.format st = .ok s)
    (htext : (if bar.width > 0 ∧ (graphicLength tbl s : Int) > bar.width then trimTo s bar.width
      else some s) = none) :
    (bar.Render tbl w).bar = bar.Lock.Unlock ∧ (bar.Render tbl w).writer = w
    ∧ (bar.Render tbl w).result = Outcome.panic := by
  unfold StatusBar.Render
  simp only [Lock_status, Lock_format, Lock_width, hst, hfmt, htext]
  simp

theorem Write_accepting (w : Writer) (p : GoString) (h : w.failure = none) :
    w.Write p = ({ w with written := w.written ++ p, calls := w.calls + 1 }, none) := by
  simp [Writer.Write, h]

theorem Write_failing (w : Writer) (p : GoString) (e : String) (h : w.failure = some e) :
    w.Write p = ({ w with calls := w.calls + 1 }, some e) := by
  simp [Writer.Write, h]

end RenderCases

/-! ## Counting runes -/

theorem foldl_count_le (p : Rune → Bool) (rs : List Rune) (c : Nat) :
    rs.foldl (fun c r => if p r then c + 1 else c) c ≤ c + rs.length := by
  induction rs generalizing c with
  | nil => simp
  | cons r rs ih =>
    simp only [List.foldl_cons, List.length_cons]
    split
    · have := ih (c + 1); omega
    · have := ih c; omega

/-- A text has at most as many graphic runes as it has runes. -/
theorem graphicLength_le_runes (tbl : GraphicTable) (s : GoString) :
    graphicLength tbl s ≤ (runes s).length := by
  have := foldl_count_le (IsGraphic tbl) (runes s) 0
  simpa [graphicLength] using this

/-! ## What a render that goes through leaves behind -/

section RenderText

variable {α : Type}

/-- Once the text of the buffer is known, so are the outcome, the bytes written
and the stored visible text. -/
theorem Render_text_summary (tbl : GraphicTable) (bar : StatusBar α) (w : Writer) (st : α)
    (s text : GoString) (hst : bar.status = some st) (hfmt : bar.format st = .ok s)
    (htext : (if bar.width > 0 ∧ (graphicLength tbl s : Int) > bar.width then trimTo s bar.width
      else some s) = some text) :
    (w.failure = none → (bar.Render tbl w).result = .ok)
    ∧ ((bar.Render tbl w).result = .ok →
        (bar.Render tbl w).writer.written = w.written ++ (text ++ [CR]))
    ∧ (bar.Render tbl w).result ≠ .panic
    ∧ (bar.Render tbl w).bar.last = ReplaceAllLiteralString (text ++ [CR]) := by
  obtain ⟨hbar, hwr, hres⟩ := Render_of_text tbl bar w st s text hst hfmt htext
  rw [hbar, hwr, hres]
  cases hw : w.failure with
  | none => simp [Write_accepting w _ hw]
  | some e => simp [Write_failing w _ e hw]

/-- The truncation that `Render` asks for at a width of three or more. -/
theorem trimTo_of_wide (tbl : GraphicTable) (s : GoString) (l : Int) (hl : 3 ≤ l)
    (hg : l < (graphicLength tbl s : Int)) :
    trimTo s l = some (encodeRunes ((runes s).take (l - 3).toNat) ++ ellipsis) := by
  have hle := graphicLength_le_runes tbl s
  unfold trimTo
  have h4 : ¬ (runes s).length < 4 := by omega
  have hb : ¬ (l - 3 < 0 ∨ ((runes s).length : Int) < l - 3) := by omega
  simp only [h4, hb, if_false]

/-- A text of fewer than four runes is never cut. -/
theorem trimTo_of_short (s : GoString) (l : Int) (h : (runes s).length < 4) :
    trimTo s l = some s := by
  unfold trimTo
  simp only [h, if_true]

end RenderText

/-! ## Single-byte text -/

theorem runesFrom_ascii (s : GoString) (h : ∀ b ∈ s, b.val < 0x80) :
    runesFrom 0 s = s.map (fun b => b.val) := by
  induction s with
  | nil => rfl
  | cons b rest ih =>
    have hb : b.val < 0x80 := h b (List.mem_cons_self b rest)
    have hd : decodeRune (b :: rest) = (b.val, 1) := by simp [decodeRune, hb]
    simp only [runesFrom, hd, List.map_cons]
    rw [ih (fun c hc => h c (List.mem_cons_of_mem b hc))]

/-- A text of single-byte characters has as many runes as bytes. -/
theorem runes_length_ascii (s : GoString) (h : ∀ b ∈ s, b.val < 0x80) :
    (runes s).length = s.length := by
  simp [runes, runesFrom_ascii s h]

theorem foldl_count_all (p : Rune → Bool) (rs : List Rune) (c : Nat) (h : ∀ r ∈ rs, p r = true) :
    rs.foldl (fun c r => if p r then c + 1 else c) c = c + rs.length := by
  induction rs generalizing c with
  | nil => simp
  | cons r rs ih =>
    simp only [List.foldl_cons, List.length_cons, h r (List.mem_cons_self r rs), if_true]
    rw [ih (c + 1) (fun x hx => h x (List.mem_cons_of_mem r hx))]
    omega

/-- A text of printable single-byte characters: its graphic length is its
number of bytes. -/
theorem graphicLength_printable (tbl : GraphicTable) (s : GoString)
    (h : ∀ b ∈ s, 0x20 ≤ b.val ∧ b.val ≤ 0x7E) : graphicLength tbl s = s.length := by
  have hascii : ∀ b ∈ s, b.val < 0x80 := fun b hb => by have := h b hb; omega
  unfold graphicLength runes
  rw [runesFrom_ascii s hascii, foldl_count_all]
  · simp
  · intro r hr
    obtain ⟨b, hb, rfl⟩ := List.mem_map.mp hr
    have := h b hb
    have h1 : b.val ≤ 0xFF := by omega
    simp [IsGraphic, h1, this.1, this.2]

/-! ## Removing the escape sequences -/

theorem replaceAllFrom_drop (k : Nat) (s : GoString) :
    replaceAllFrom k s = replaceAllFrom 0 (s.drop k) := by
  induction s generalizing k with
  | nil => cases k <;> rfl
  | cons b rest ih =>
    cases k with
    | zero => rfl
    | succ k => simpa [replaceAllFrom] using ih k

/-- The scan unfolded: where the pattern matches, the match is dropped and the
scan goes on behind it; elsewhere the byte is copied. -/
theorem ReplaceAll_cons (b : Byte) (rest : GoString) :
    ReplaceAllLiteralString (b :: rest) =
      (match escapeSequenceRegexp (b :: rest) with
       | some n => ReplaceAllLiteralString ((b :: rest).drop n)
       | none => b :: ReplaceAllLiteralString rest) := by
  unfold ReplaceAllLiteralString
  cases h : escapeSequenceRegexp (b :: rest) with
  | none => simp [replaceAllFrom, h]
  | some n =>
    have hn : 1 ≤ n := by
      match rest, h with
      | c :: rest', h =>
        simp only [escapeSequenceRegexp] at h
        split at h
        · cases hf : findM rest' with
          | none => simp [hf] at h
          | some i => simp [hf] at h; omega
        · cases h
    simp only [replaceAllFrom, h]
    rw [replaceAllFrom_drop]
    obtain ⟨m, rfl⟩ : ∃ m, n = m + 1 := ⟨n - 1, by omega⟩
    simp

theorem replaceAllFrom_sublist (k : Nat) (s : GoString) : (replaceAllFrom k s).Sublist s := by
  induction s generalizing k with
  | nil => cases k <;> exact List.Sublist.slnil
  | cons b rest ih =>
    cases k with
    | zero =>
      simp only [replaceAllFrom]
      split
      · exact (ih _).cons b
      · exact (ih 0).cons₂ b
    | succ k => exact (ih k).cons b

/-- Removing the escape sequences only removes: what is left is a subsequence. -/
theorem ReplaceAll_sublist (s : GoString) : (ReplaceAllLiteralString s).Sublist s :=
  replaceAllFrom_sublist 0 s

theorem findM_eq_none (t : GoString) : findM t = none ↔ letterM ∉ t := by
  induction t with
  | nil => simp [findM]
  | cons b rest ih =>
    by_cases hb : b = letterM
    · simp [findM, hb]
    · have hb' : ¬ letterM = b := fun h => hb h.symm
      simp [findM, hb, hb', ih]

theorem findM_append_isSome (t u : GoString) (h : (findM t).isSome) : (findM (t ++ u)).isSome := by
  cases hf : findM (t ++ u) with
  | some i => rfl
  | none =>
    have h1 : letterM ∉ t := fun hm => (findM_eq_none _).mp hf (List.mem_append_left u hm)
    rw [(findM_eq_none t).mpr h1] at h
    cases h

theorem escapeSequenceRegexp_pos (s : GoString) (n : Nat) (h : escapeSequenceRegexp s = some n) :
    3 ≤ n := by
  match s, h with
  | e :: c :: rest, h =>
    simp only [escapeSequenceRegexp] at h
    split at h
    · cases hf : findM rest with
      | none => simp [hf] at h
      | some i => simp [hf] at h; omega
    · cases h

/-- The pattern starts with `ESC`: it does not match at any other byte. -/
theorem escapeSequenceRegexp_of_ne_ESC (b : Byte) (t : GoString) (hb : b ≠ ESC) :
    escapeSequenceRegexp (b :: t) = none := by
  cases t with
  | nil => rfl
  | cons c t => simp [escapeSequenceRegexp, hb]

/-- The pattern ends with `m`: it does not match in front of a text without `m`. -/
theorem escapeSequenceRegexp_of_no_m (b : Byte) (t : GoString) (ht : letterM ∉ t) :
    escapeSequenceRegexp (b :: t) = none := by
  cases t with
  | nil => rfl
  | cons c t =>
    have : findM t = none := (findM_eq_none t).mpr (fun hm => ht (List.mem_cons_of_mem c hm))
    simp [escapeSequenceRegexp, this]

/-- Where the pattern does not match, it does not match either once the escape
sequences behind that position are removed. -/
theorem escapeSequenceRegexp_none_ReplaceAll (b : Byte) (rest : GoString)
    (h : escapeSequenceRegexp (b :: rest) = none) :
    escapeSequenceRegexp (b :: ReplaceAllLiteralString rest) = none := by
  cases rest with
  | nil => rfl
  | cons c rest' =>
    by_cases hb : b = ESC
    · by_cases hc : c = letterM
      · have hne : c ≠ ESC := by rw [hc]; decide
        have hcons := ReplaceAll_cons c rest'
        rw [escapeSequenceRegexp_of_ne_ESC c rest' hne] at hcons
        rw [hcons]
        simp [escapeSequenceRegexp, hc]
      · have hf : findM rest' = none := by
          cases hf : findM rest' with
          | none => rfl
          | some i => simp [escapeSequenceRegexp, hb, hc, hf] at h
        have hno : letterM ∉ c :: rest' := by
          intro hm
          rcases List.mem_cons.mp hm with h1 | h1
          · exact hc h1.symm
          · exact (findM_eq_none rest').mp hf h1
        exact escapeSequenceRegexp_of_no_m b _
          (fun hm => hno ((ReplaceAll_sublist (c :: rest')).subset hm))
    · exact escapeSequenceRegexp_of_ne_ESC b _ hb

theorem ReplaceAll_matchFree_aux (n : Nat) :
    ∀ s : GoString, s.length ≤ n → matchFree (ReplaceAllLiteralString s) = true := by
  induction n with
  | zero =>
    intro s hs
    have : s = [] := List.length_eq_zero.mp (by omega)
    subst this
    rfl
  | succ n ih =>
    intro s hs
    cases s with
    | nil => rfl
    | cons b rest =>
      rw [ReplaceAll_cons]
      cases h : escapeSequenceRegexp (b :: rest) with
      | some k =>
        have hk := escapeSequenceRegexp_pos _ _ h
        apply ih
        simp only [List.length_drop, List.length_cons] at hs ⊢
        omega
      | none =>
        simp only [matchFree, Bool.and_eq_true]
        refine ⟨?_, ih rest (by simpa using hs)⟩
        rw [escapeSequenceRegexp_none_ReplaceAll b rest h]
        rfl

/-- After the escape sequences are removed the pattern matches nowhere. -/
theorem ReplaceAll_matchFree (s : GoString) : matchFree (ReplaceAllLiteralString s) = true :=
  ReplaceAll_matchFree_aux s.length s (le_refl _)

/-! ## Texts whose escape sequences are complete -/

theorem escapesComplete_of_no_ESC (t : GoString) (h : ESC ∉ t) : escapesComplete t = true := by
  induction t with
  | nil => rfl
  | cons b rest ih =>
    have hb : b ≠ ESC := fun hb => h (hb ▸ List.mem_cons_self b rest)
    simp [escapesComplete, hb, ih (fun hm => h (List.mem_cons_of_mem b hm))]

theorem escapeSequenceRegexp_append_isSome (s u : GoString)
    (h : (escapeSequenceRegexp s).isSome) : (escapeSequenceRegexp (s ++ u)).isSome := by
  match s, h with
  | e :: c :: rest, h =>
    simp only [escapeSequenceRegexp, List.cons_append] at h ⊢
    split at h
    · rename_i hc
      rw [if_pos hc]
      have h1 : (findM rest).isSome := by
        cases hf : findM rest with
        | none => simp [hf] at h
        | some i => rfl
      have h2 := findM_append_isSome rest u h1
      cases hf : findM (rest ++ u) with
      | none => simp [hf] at h2
      | some i => rfl
    · cases h

/-- Text without `ESC` appended to a text whose escape sequences are complete
leaves them complete. -/
theorem escapesComplete_append (s u : GoString) (hs : escapesComplete s = true) (hu : ESC ∉ u) :
    escapesComplete (s ++ u) = true := by
  induction s with
  | nil => exact escapesComplete_of_no_ESC u hu
  | cons b rest ih =>
    simp only [escapesComplete, Bool.and_eq_true, Bool.or_eq_true] at hs
    simp only [List.cons_append, escapesComplete, Bool.and_eq_true, Bool.or_eq_true]
    refine ⟨?_, ih hs.2⟩
    rcases hs.1 with h1 | h1
    · exact Or.inl h1
    · exact Or.inr (escapeSequenceRegexp_append_isSome (b :: rest) u h1)

theorem replaceAllFrom_no_ESC (s : GoString) (hs : escapesComplete s = true) (k : Nat) :
    ESC ∉ replaceAllFrom k s := by
  induction s generalizing k with
  | nil => cases k <;> simp [replaceAllFrom]
  | cons b rest ih =>
    simp only [escapesComplete, Bool.and_eq_true, Bool.or_eq_true] at hs
    cases k with
    | succ k => exact ih hs.2 k
    | zero =>
      simp only [replaceAllFrom]
      cases h : escapeSequenceRegexp (b :: rest) with
      | some n => exact ih hs.2 (n - 1)
      | none =>
        have hb : b ≠ ESC := by
          rcases hs.1 with h1 | h1
          · simpa using h1
          · rw [h] at h1; cases h1
        simp only [List.mem_cons, not_or]
        exact ⟨fun hm => hb hm.symm, ih hs.2 0⟩

/-- When every `ESC` begins a complete escape sequence, removing the escape
sequences leaves no `ESC`. -/
theorem ReplaceAll_no_ESC (s : GoString) (hs : escapesComplete s = true) :
    ESC ∉ ReplaceAllLiteralString s :=
  replaceAllFrom_no_ESC s hs 0

/-! ## When `Render` panics, and what `Clear` writes -/

section Totality

variable {α : Type}

/-- The one way `Render` can panic: the slice of `trimTo` with a negative bound,
at a width of 1 or 2 and a text of at least four runes that is wider than that. -/
theorem Render_panic_iff (tbl : GraphicTable) (bar : StatusBar α) (w : Writer) :
    (bar.Render tbl w).result = .panic ↔
      ∃ st s, bar.status = some st ∧ bar.format st = .ok s ∧ 0 < bar.width ∧ bar.width < 3
        ∧ bar.width < (graphicLength tbl s : Int) ∧ 4 ≤ (runes s).length := by
  cases hst : bar.status with
  | none =>
    have : (bar.Render tbl w).result = .ok := by
      unfold StatusBar.Render
      simp only [Lock_status, hst]
    simp [this]
  | some st =>
    cases hfmt : bar.format st with
    | error e =>
      have : (bar.Render tbl w).result = .error ("error during rendering status bar: " ++ e) := by
        unfold StatusBar.Render
        simp only [Lock_status, Lock_format, hst, hfmt]
      simp [this, hfmt]
    | ok s =>
      have hle := graphicLength_le_runes tbl s
      cases htext : (if bar.width > 0 ∧ (graphicLength tbl s : Int) > bar.width then
          trimTo s bar.width else some s) with
      | some text =>
        have h3 := (Render_text_summary tbl bar w st s text hst hfmt htext).2.2.1
        constructor
        · intro h; exact absurd h h3
        · rintro ⟨st', s', hst', hfmt', h0, h2, hg, h4⟩
          cases hst'
          rw [hfmt] at hfmt'
          cases hfmt'
          exfalso
          have hc : bar.width > 0 ∧ (graphicLength tbl s : Int) > bar.width := ⟨h0, hg⟩
          rw [if_pos hc] at htext
          unfold trimTo at htext
          have h4' : ¬ (runes s).length < 4 := by omega
          have hb : bar.width - 3 < 0 ∨ ((runes s).length : Int) < bar.width - 3 := Or.inl (by omega)
          simp only [h4', hb, if_false, if_true] at htext
          cases htext
      | none =>
        have h3 := (Render_of_panic tbl bar w st s hst hfmt htext).2.2
        constructor
        · intro _
          refine ⟨st, s, rfl, hfmt, ?_⟩
          split at htext
          · rename_i hc
            unfold trimTo at htext
            by_cases h4 : (runes s).length < 4
            · simp only [h4, if_true] at htext
              cases htext
            · by_cases hb : bar.width - 3 < 0 ∨ ((runes s).length : Int) < bar.width - 3
              · exact ⟨hc.1, by omega, hc.2, by omega⟩
              · simp only [h4, hb, if_false] at htext
                cases htext
          · cases htext
        · intro _; exact h3

/-- What `Clear` hands to an accepting writer, and what it leaves in the bar. -/
theorem Clear_accepting (bar : StatusBar α) (w : Writer) (hw : w.failure = none) :
    (bar.Clear w).2.written
        = w.written ++ (List.replicate (TrimRight bar.last blanks).length SP ++ [CR])
    ∧ (bar.Clear w).1.last = [] := by
  unfold StatusBar.Clear
  simp [Write_accepting w _ hw]

end Totality

/-! ## The two failures of `Render` are told apart by their message -/

/-- The message of a write failure is never the message of a template failure. -/
theorem write_message_ne_template_message (e e' : String) :
    "can't write status bar: " ++ e ≠ "error during rendering status bar: " ++ e' := by
  intro h
  have h1 := congrArg String.data h
  simp only [String.data_append] at h1
  have h2 := congrArg List.head? h1
  simp at h2

/-! ## Text in which the pattern matches nowhere -/

/-- Where the pattern matches nowhere there is nothing to remove. -/
theorem ReplaceAll_of_matchFree (t : GoString) (h : matchFree t = true) :
    ReplaceAllLiteralString t = t := by
  induction t with
  | nil => rfl
  | cons b rest ih =>
    simp only [matchFree, Bool.and_eq_true, Option.isNone_iff_eq_none] at h
    rw [ReplaceAll_cons, h.1, ih h.2]

/-- Removing the escape sequences a second time changes nothing. -/
theorem ReplaceAll_idempotent (s : GoString) :
    ReplaceAllLiteralString (ReplaceAllLiteralString s) = ReplaceAllLiteralString s :=
  ReplaceAll_of_matchFree _ (ReplaceAll_matchFree s)

/-! ## The lock is taken and given back once -/

section LockCount

variable {α : Type}

theorem Lock_Unlock_of_locker (bar : StatusBar α) (l : Locker) (h : bar.Locker = some l) :
    bar.Lock.Unlock.Locker = some { locks := l.locks + 1, unlocks := l.unlocks + 1 } := by
  rcases bar with ⟨_ | l', f, la, st, wd⟩
  · cases h
  · cases h; rfl

theorem Lock_Unlock_with_last (bar : StatusBar α) (x : GoString) :
    ({ bar.Lock with last := x }).Unlock.Locker = bar.Lock.Unlock.Locker := by
  rcases bar with ⟨_ | l, f, la, st, wd⟩ <;> rfl

theorem Lock_Unlock_with_width (bar : StatusBar α) (x : Int) :
    ({ bar.Lock with width := x }).Unlock.Locker = bar.Lock.Unlock.Locker := by
  rcases bar with ⟨_ | l, f, la, st, wd⟩ <;> rfl

theorem Lock_Unlock_with_status (bar : StatusBar α) (x : Option α) :
    ({ bar.Lock with status := x }).Unlock.Locker = bar.Lock.Unlock.Locker := by
  rcases bar with ⟨_ | l, f, la, st, wd⟩ <;> rfl

/-- Whatever way `Render` takes, the locker of the bar it leaves is the locker
after one `Lock` and one `Unlock`. -/
theorem Render_Locker (tbl : GraphicTable) (bar : StatusBar α) (w : Writer) :
    (bar.Render tbl w).bar.Locker = bar.Lock.Unlock.Locker := by
  cases hst : bar.status with
  | none =>
    unfold StatusBar.Render
    simp only [Lock_status, hst]
  | some st =>
    cases hfmt : bar.format st with
    | error e =>
      unfold StatusBar.Render
      simp only [Lock_status, Lock_format, hst, hfmt]
    | ok s =>
      cases htext : (if bar.width > 0 ∧ (graphicLength tbl s : Int) > bar.width then
          trimTo s bar.width else some s) with
      | none => rw [(Render_of_panic tbl bar w st s hst hfmt htext).1]
      | some text =>
        rw [(Render_of_text tbl bar w st s text hst hfmt htext).1]
        exact Lock_Unlock_with_last bar _

theorem Clear_Locker (bar : StatusBar α) (w : Writer) :
    (bar.Clear w).1.Locker = bar.Lock.Unlock.Locker := by
  unfold StatusBar.Clear
  exact Lock_Unlock_with_last bar _

end LockCount

/-! ## A render that is not cut -/

section Uncut

variable {α : Type}

/-- Without a positive width below the graphic length the buffer holds the
template output as it is. -/
theorem text_of_uncut (tbl : GraphicTable) (width : Int) (s : GoString)
    (h : width ≤ 0 ∨ (graphicLength tbl s : Int) ≤ width) :
    (if width > 0 ∧ (graphicLength tbl s : Int) > width then trimTo s width else some s)
      = some s := by
  have hc : ¬ (width > 0 ∧ (graphicLength tbl s : Int) > width) := by omega
  rw [if_neg hc]

/-- The text of the buffer of a `Render` that does not panic: the template
output or its truncation. -/
theorem text_of_returning (tbl : GraphicTable) (bar : StatusBar α) (w : Writer) (st : α)
    (s : GoString) (hst : bar.status = some st) (hfmt : bar.format st = .ok s)
    (hret : (bar.Render tbl w).result ≠ .panic) :
    ∃ text, (text = s ∨ trimTo s bar.width = some text)
      ∧ (if bar.width > 0 ∧ (graphicLength tbl s : Int) > bar.width then trimTo s bar.width
          else some s) = some text := by
  cases htext : (if bar.width > 0 ∧ (graphicLength tbl s : Int) > bar.width then
      trimTo s bar.width else some s) with
  | none => exact absurd (Render_of_panic tbl bar w st s hst hfmt htext).2.2 hret
  | some text =>
    refine ⟨text, ?_, rfl⟩
    split at htext
    · exact Or.inr htext
    · exact Or.inl (Option.some.inj htext).symm

end Uncut

/-! ## The codec: decoding what was encoded -/

theorem decodeRune_encodeRune (r : Nat) (t : GoString) (h : ValidRune r = true) :
    decodeRune (encodeRune r ++ t) = (r, (encodeRune r).length) := by
  simp only [ValidRune, Bool.and_eq_true, decide_eq_true_eq, Bool.not_eq_true', Bool.and_eq_false_iff,
    decide_eq_false_iff_not] at h
  unfold encodeRune
  by_cases h1 : r ≤ 0x7F
  · have hv : (Fin.ofNat r : Byte).val = r := by
      show r % 256 = r
      omega
    simp only [h1, if_true, List.singleton_append, List.length_singleton, decodeRune, hv]
    rw [if_pos (by omega)]
  · by_cases h2 : r ≤ 0x7FF
    · have hv0 : (Fin.ofNat (0xC0 + r / 64) : Byte).val = 0xC0 + r / 64 := by
        show (0xC0 + r / 64) % 256 = _
        omega
      have hv1 : (Fin.ofNat (0x80 + r % 64) : Byte).val = 0x80 + r % 64 := by
        show (0x80 + r % 64) % 256 = _
        omega
      simp only [h1, h2, if_true, if_false, List.cons_append, List.nil_append, List.length_cons,
        List.length_nil, decodeRune, hv0, hv1, isCont]
      rw [if_neg (by omega), if_pos (by omega), if_pos]
      · refine Prod.ext ?_ rfl
        show (192 + r / 64) % 32 * 64 + (128 + r % 64) % 64 = r
        omega
      · refine ⟨by simp; omega, by omega⟩
    · obtain ⟨hmax, hsur⟩ := h
      have hs : ¬ (0x10FFFF < r ∨ (0xD800 ≤ r ∧ r ≤ 0xDFFF)) := by
        rcases hsur with hsur | hsur <;> omega
      by_cases h3 : r ≤ 0xFFFF
      · have hv0 : (Fin.ofNat (0xE0 + r / 4096) : Byte).val = 0xE0 + r / 4096 := by
          show (0xE0 + r / 4096) % 256 = _
          omega
        have hv1 : (Fin.ofNat (0x80 + (r / 64) % 64) : Byte).val = 0x80 + (r / 64) % 64 := by
          show (0x80 + (r / 64) % 64) % 256 = _
          omega
        have hv2 : (Fin.ofNat (0x80 + r % 64) : Byte).val = 0x80 + r % 64 := by
          show (0x80 + r % 64) % 256 = _
          omega
        simp only [h1, h2, h3, hs, if_true, if_false, List.cons_append, List.nil_append,
          List.length_cons, List.length_nil, decodeRune, hv0, hv1, hv2, isCont]
        have hr : (0xE0 + r / 4096) % 16 * 4096 + (0x80 + r / 64 % 64) % 64 * 64
            + (0x80 + r % 64) % 64 = r := by omega
        rw [if_neg (by omega), if_neg (by omega), if_pos (by omega), hr, if_pos]
        refine ⟨by simp; omega, by simp; omega, by omega, by omega⟩
      · have hv0 : (Fin.ofNat (0xF0 + r / 262144) : Byte).val = 0xF0 + r / 262144 := by
          show (0xF0 + r / 262144) % 256 = _
          omega
        have hv1 : (Fin.ofNat (0x80 + (r / 4096) % 64) : Byte).val = 0x80 + (r / 4096) % 64 := by
          show (0x80 + (r / 4096) % 64) % 256 = _
          omega
        have hv2 : (Fin.ofNat (0x80 + (r / 64) % 64) : Byte).val = 0x80 + (r / 64) % 64 := by
          show (0x80 + (r / 64) % 64) % 256 = _
          omega
        have hv3 : (Fin.ofNat (0x80 + r % 64) : Byte).val = 0x80 + r % 64 := by
          show (0x80 + r % 64) % 256 = _
          omega
        simp only [h1, h2, h3, hs, if_true, if_false, List.cons_append, List.nil_append,
          List.length_cons, List.length_nil, decodeRune, hv0, hv1, hv2, hv3, isCont]
        have hr : (0xF0 + r / 262144) % 8 * 262144 + (0x80 + r / 4096 % 64) % 64 * 4096
            + (0x80 + r / 64 % 64) % 64 * 64 + (0x80 + r % 64) % 64 = r := by omega
        rw [if_neg (by omega), if_neg (by omega), if_neg (by omega), if_pos (by omega), hr, if_pos]
        refine ⟨by simp; omega, by simp; omega, by simp; omega, by omega, by omega⟩


theorem decodeRune_valid (t : GoString) : ValidRune (decodeRune t).1 = true := by
  unfold decodeRune
  repeat' split
  all_goals try dsimp only
  all_goals try split_ifs
  all_goals simp only [ValidRune, runeError, Bool.and_eq_true, decide_eq_true_eq,
    Bool.not_eq_true', Bool.and_eq_false_iff, decide_eq_false_iff_not]
  all_goals omega

theorem decodeRune_width (b : Byte) (rest : GoString) :
    1 ≤ (decodeRune (b :: rest)).2 ∧ (decodeRune (b :: rest)).2 ≤ rest.length + 1 := by
  rcases rest with _ | ⟨b1, _ | ⟨b2, _ | ⟨b3, rest⟩⟩⟩ <;>
    simp only [decodeRune, List.length_cons, List.length_nil] <;>
    split_ifs <;> simp

theorem runesFrom_length_le (t : GoString) (k : Nat) : (runesFrom k t).length ≤ t.length := by
  induction t generalizing k with
  | nil => cases k <;> simp [runesFrom]
  | cons b rest ih =>
    cases k with
    | zero =>
      simp only [runesFrom, List.length_cons]
      have := ih ((decodeRune (b :: rest)).2 - 1)
      omega
    | succ k =>
      simp only [runesFrom, List.length_cons]
      have := ih k
      omega

theorem runesFrom_valid (t : GoString) (k : Nat) : ∀ r ∈ runesFrom k t, ValidRune r = true := by
  induction t generalizing k with
  | nil => cases k <;> simp [runesFrom]
  | cons b rest ih =>
    cases k with
    | zero =>
      intro r hr
      simp only [runesFrom, List.mem_cons] at hr
      rcases hr with rfl | hr
      · exact decodeRune_valid _
      · exact ih _ r hr
    | succ k => exact ih k

theorem encodeRune_length (r : Nat) : 1 ≤ (encodeRune r).length ∧ (encodeRune r).length ≤ 4 := by
  unfold encodeRune
  repeat' split
  all_goals simp

theorem runesFrom_skip (k : Nat) (p t : GoString) (h : p.length = k) :
    runesFrom k (p ++ t) = runesFrom 0 t := by
  induction p generalizing k with
  | nil => subst h; rfl
  | cons b rest ih =>
    subst h
    simp only [List.cons_append, List.length_cons, runesFrom]
    exact ih _ rfl

theorem runesFrom_encodeRune (r : Nat) (t : GoString) (h : ValidRune r = true) :
    runesFrom 0 (encodeRune r ++ t) = r :: runesFrom 0 t := by
  have hd := decodeRune_encodeRune r t h
  have hl := encodeRune_length r
  cases he : encodeRune r with
  | nil => rw [he] at hl; simp at hl
  | cons b rest =>
    rw [he] at hd
    simp only [List.cons_append] at hd ⊢
    simp only [runesFrom, hd, List.length_cons, Nat.add_sub_cancel]
    rw [runesFrom_skip _ rest t rfl]

/-- Decoding what `string(rs)` wrote gives the valid runes `rs` back. -/
theorem runes_encodeRunes_append (rs : List Nat) (t : GoString)
    (h : ∀ r ∈ rs, ValidRune r = true) : runes (encodeRunes rs ++ t) = rs ++ runes t := by
  induction rs with
  | nil => rfl
  | cons r rs ih =>
    have h1 := h r (List.mem_cons_self r rs)
    have h2 := ih (fun x hx => h x (List.mem_cons_of_mem r hx))
    unfold runes encodeRunes at *
    simp only [List.flatMap_cons, List.append_assoc, List.cons_append]
    rw [runesFrom_encodeRune r _ h1, h2]

theorem decodeRune_append_ascii (b c : Byte) (rest : GoString) (hc : c.val < 0x80) :
    decodeRune (b :: (rest ++ [c])) = decodeRune (b :: rest) := by
  have hcont : isCont c = false := by
    simp only [isCont, Bool.and_eq_false_iff, decide_eq_false_iff_not]
    omega
  rcases rest with _ | ⟨b1, _ | ⟨b2, _ | ⟨b3, rest⟩⟩⟩ <;>
    simp [decodeRune, hcont]

theorem runesFrom_append_ascii (s : GoString) (c : Byte) (hc : c.val < 0x80) (k : Nat)
    (hk : k ≤ s.length) : runesFrom k (s ++ [c]) = runesFrom k s ++ [c.val] := by
  induction s generalizing k with
  | nil =>
    have : k = 0 := by simpa using hk
    subst this
    simp [runesFrom, decodeRune, hc]
  | cons b rest ih =>
    cases k with
    | zero =>
      have hw := decodeRune_width b rest
      have hd := decodeRune_append_ascii b c rest hc
      show runesFrom 0 (b :: (rest ++ [c])) = runesFrom 0 (b :: rest) ++ [c.val]
      rw [runesFrom, runesFrom, hd, ih _ (by omega)]
      rfl
    | succ k =>
      show runesFrom (k + 1) (b :: (rest ++ [c])) = runesFrom (k + 1) (b :: rest) ++ [c.val]
      rw [runesFrom, runesFrom]
      exact ih k (by simpa using hk)

/-! ## The width of the line that is written -/

/-- The carriage return that `Render` appends is read as a rune of its own and is
not graphic. -/
theorem graphicLength_append_CR (tbl : GraphicTable) (s : GoString) :
    graphicLength tbl (s ++ [CR]) = graphicLength tbl s := by
  unfold graphicLength runes
  rw [runesFrom_append_ascii s CR (by decide) 0 (Nat.zero_le _), List.foldl_append]
  rfl

/-- The runes of a truncated text: the runes kept and the ellipsis. -/
theorem runes_truncation (s : GoString) (n : Nat) :
    runes (encodeRunes ((runes s).take n) ++ ellipsis) = (runes s).take n ++ [0x2026] := by
  have hv : ∀ r ∈ (runes s).take n, ValidRune r = true :=
    fun r hr => runesFrom_valid s 0 r (List.mem_of_mem_take hr)
  rw [runes_encodeRunes_append _ _ hv]
  rfl

theorem graphicLength_truncation_le (tbl : GraphicTable) (s : GoString) (n : Nat) :
    graphicLength tbl (encodeRunes ((runes s).take n) ++ ellipsis ++ [CR]) ≤ n + 1 := by
  rw [graphicLength_append_CR]
  unfold graphicLength
  rw [runes_truncation]
  have h1 := foldl_count_le (IsGraphic tbl) ((runes s).take n ++ [0x2026]) 0
  have h2 := List.length_take_le n (runes s)
  simp only [List.length_append, List.length_singleton] at h1
  omega

/-! ## Bytes and code points -/

/-- A text has at most as many code points as bytes. -/
theorem runes_length_le (t : GoString) : (runes t).length ≤ t.length :=
  runesFrom_length_le t 0

theorem encodeRune_ascii (b : Byte) (hb : b.val < 0x80) : encodeRune b.val = [b] := by
  unfold encodeRune
  have h1 : b.val ≤ 127 := by omega
  rw [if_pos h1]
  congr 1
  apply Fin.ext
  show b.val % 256 = b.val
  omega

theorem encodeRunes_ascii (t : GoString) (h : ∀ b ∈ t, b.val < 0x80) :
    encodeRunes (t.map (fun b => b.val)) = t := by
  induction t with
  | nil => rfl
  | cons b rest ih =>
    simp only [encodeRunes, List.map_cons, List.flatMap_cons] at ih ⊢
    rw [encodeRune_ascii b (h b (List.mem_cons_self b rest)),
      ih (fun c hc => h c (List.mem_cons_of_mem b hc))]
    rfl

theorem encodeRune_single (r : Nat) (h : (encodeRune r).length = 1) :
    ∀ b ∈ encodeRune r, b.val < 0x80 := by
  unfold encodeRune at h ⊢
  split_ifs at h ⊢ with h1 <;> simp at h
  have h1' : r ≤ 127 := h1
  intro b hb
  simp only [List.mem_singleton] at hb
  subst hb
  show r % 256 < 0x80
  omega

/-- When `string(rs)` has as many bytes as `rs` has runes, all of them are
single-byte characters. -/
theorem encodeRunes_single (rs : List Nat) (h : (encodeRunes rs).length = rs.length) :
    ∀ b ∈ encodeRunes rs, b.val < 0x80 := by
  induction rs with
  | nil => intro b hb; simp [encodeRunes] at hb
  | cons r rs ih =>
    have hge : ∀ l : List Nat, l.length ≤ (encodeRunes l).length := by
      intro l
      induction l with
      | nil => simp
      | cons x l ihl =>
        have := (encodeRune_length x).1
        simp only [encodeRunes, List.flatMap_cons, List.length_append, List.length_cons] at ihl ⊢
        omega
    have h1 := (encodeRune_length r).1
    have h2 := hge rs
    simp only [encodeRunes, List.flatMap_cons, List.length_append, List.length_cons] at h h2 ih ⊢
    intro b hb
    rcases List.mem_append.mp hb with hb | hb
    · exact encodeRune_single r (by omega) b hb
    · exact ih (by omega) b hb

/-- A valid text with as many code points as bytes is pure ASCII. -/
theorem ascii_of_valid (t : GoString) (hv : ValidString t = true)
    (hl : (runes t).length = t.length) : ∀ b ∈ t, b.val < 0x80 := by
  have he : encodeRunes (runes t) = t := by simpa [ValidString] using hv
  have := encodeRunes_single (runes t) (by rw [he, hl])
  rwa [he] at this

/-! ## Text without `ESC`, and the blanks behind an ellipsis -/

theorem matchFree_of_no_ESC (t : GoString) (h : ESC ∉ t) : matchFree t = true := by
  induction t with
  | nil => rfl
  | cons b rest ih =>
    have hb : b ≠ ESC := fun hb => h (hb ▸ List.mem_cons_self b rest)
    simp only [matchFree, Bool.and_eq_true, Option.isNone_iff_eq_none]
    exact ⟨escapeSequenceRegexp_of_ne_ESC b rest hb, ih (fun hm => h (List.mem_cons_of_mem b hm))⟩

/-- A text without `ESC` holds no escape sequence to remove. -/
theorem ReplaceAll_of_no_ESC (t : GoString) (h : ESC ∉ t) : ReplaceAllLiteralString t = t :=
  ReplaceAll_of_matchFree t (matchFree_of_no_ESC t h)

/-- Of a line that ends in the ellipsis and a carriage return, `TrimRight` takes
the carriage return away and stops at the ellipsis. -/
theorem TrimRight_ellipsis_CR (t : GoString) :
    TrimRight (t ++ ellipsis ++ [CR]) blanks = t ++ ellipsis := by
  unfold TrimRight
  rw [List.rdropWhile_concat_pos _ _ _ (by decide)]
  have he : t ++ ellipsis = (t ++ [0xE2, 0x80]) ++ [0xA6] := by simp [ellipsis]
  rw [he, List.rdropWhile_concat_neg _ _ _ (by decide)]

/-! ## Payloads set one after the other -/

section Sequence

variable {α : Type}

/-- Of payloads set one after the other the bar keeps the last. -/
theorem SetStatus_last_wins (bar : StatusBar α) (ds : List (Option α)) (d : Option α) :
    ((ds ++ [d]).foldl StatusBar.SetStatus bar).status = d := by
  rw [List.foldl_append]
  simp [StatusBar.SetStatus]

end Sequence

/-! ## The worked examples do not depend on the Unicode table -/

/-- The escape sequences of `redHello` count towards its graphic length whatever
the table says about runes above Latin-1. -/
theorem graphicLength_redHello (tbl : GraphicTable) : graphicLength tbl redHello = 12 := rfl

/-- At width 5 `redHello` is cut inside its first escape sequence, whatever the
table. -/
theorem Render_redHello_width_five (tbl : GraphicTable) :
    ((barShowing redHello 5).Render tbl emptyWriter).writer.written = lit "\x1b[…\r" := rfl

/-- At width 1 the text `abcd` makes `Render` panic, whatever the table. -/
theorem Render_abcd_width_one (tbl : GraphicTable) :
    ((barShowing (lit "abcd") 1).Render tbl emptyWriter).result = .panic := rfl

/-! ## The operations step by step are the operations -/

section Steps

variable {α : Type}

theorem Machine.Lock_bar (m : Machine α) : m.Lock.bar = m.bar.Lock := by
  unfold Machine.Lock
  cases h : m.bar.Locker with
  | some l => rfl
  | none => simp [StatusBar.Lock, h]

theorem Machine.Lock_writer (m : Machine α) : m.Lock.writer = m.writer := by
  unfold Machine.Lock
  split <;> rfl

theorem Machine.Unlock_bar (m : Machine α) : m.Unlock.bar = m.bar.Unlock := by
  unfold Machine.Unlock
  cases h : m.bar.Locker with
  | some l => rfl
  | none => simp [StatusBar.Unlock, h]

theorem Machine.Unlock_writer (m : Machine α) : m.Unlock.writer = m.writer := by
  unfold Machine.Unlock
  split <;> rfl

theorem Machine.renderBody_refines (tbl : GraphicTable) (m : Machine α) (b : StatusBar α)
    (hb : m.bar = b.Lock) :
    (m.renderBody tbl).1.bar.Unlock = (b.Render tbl m.writer).bar
    ∧ (m.renderBody tbl).1.writer = (b.Render tbl m.writer).writer
    ∧ (m.renderBody tbl).2 = (b.Render tbl m.writer).result := by
  unfold Machine.renderBody StatusBar.Render
  simp only [Machine.readStatus, Machine.readFormat, Machine.readWidth, Machine.Execute,
    Machine.writeLast, Machine.Copy, hb]
  cases hst : b.Lock.status with
  | none => simp
  | some st =>
    simp only []
    cases hfmt : b.Lock.format st with
    | error e => simp
    | ok str =>
      simp only []
      have hst' : b.status = some st := by simpa using hst
      by_cases h0 : b.Lock.width > 0
      · by_cases hg : (graphicLength tbl str : Int) > b.Lock.width
        · simp only [h0, hg, if_true, and_self, decide_True]
          cases htrim : trimTo str b.Lock.width with
          | none => simp
          | some text => cases hw : m.writer.failure <;> simp [Writer.Write, hw, hst']
        · simp only [h0, hg, if_true, if_false, and_false, decide_False, Bool.false_eq_true]
          cases hw : m.writer.failure <;> simp [Writer.Write, hw, hst']
      · simp only [h0, if_false, false_and, Bool.false_eq_true]
        cases hw : m.writer.failure <;> simp [Writer.Write, hw, hst']

theorem Machine.renderBody_trace (tbl : GraphicTable) (m : Machine α) :
    (m.renderBody tbl).1.bar.Locker = m.bar.Locker
    ∧ ∃ body, (m.renderBody tbl).1.trace = m.trace ++ body ∧ lockFree body = true := by
  unfold Machine.renderBody
  simp only [Machine.readStatus, Machine.readFormat, Machine.readWidth, Machine.Execute,
    Machine.writeLast, Machine.Copy]
  cases hst : m.bar.status with
  | none => exact ⟨rfl, _, rfl, rfl⟩
  | some st =>
    simp only []
    cases hfmt : m.bar.format st with
    | error e =>
      simp only []
      refine ⟨by trivial, ?_⟩
      apply Exists.intro
      constructor
      · simp only [List.append_assoc]; rfl
      · rfl
    | ok str =>
      simp only []
      by_cases h0 : m.bar.width > 0
      · by_cases hg : (graphicLength tbl str : Int) > m.bar.width
        · simp only [h0, hg, if_true, and_self, decide_True]
          cases htrim : trimTo str m.bar.width with
          | none =>
            simp only []
            refine ⟨by trivial, ?_⟩
            apply Exists.intro
            constructor
            · simp only [List.append_assoc]; rfl
            · rfl
          | some text =>
            simp only []
            cases hw : (m.writer.Write (text ++ [CR])).2 <;>
            · simp only []
              refine ⟨by trivial, ?_⟩
              apply Exists.intro
              constructor
              · simp only [List.append_assoc]; rfl
              · rfl
        · simp only [h0, hg, if_true, if_false, and_false, decide_False, Bool.false_eq_true]
          cases hw : (m.writer.Write (str ++ [CR])).2 <;>
          · simp only []
            refine ⟨by trivial, ?_⟩
            apply Exists.intro
            constructor
            · simp only [List.append_assoc]; rfl
            · rfl
      · simp only [h0, if_false, false_and, Bool.false_eq_true]
        cases hw : (m.writer.Write (str ++ [CR])).2 <;>
        · simp only []
          refine ⟨by trivial, ?_⟩
          apply Exists.intro
          constructor
          · simp only [List.append_assoc]; rfl
          · rfl

/-- Steps that begin with the acquisition, end with the release and have no
operation on the locker between them hold the lock throughout. -/
theorem heldThroughout_of_body (body : List Event) (h : lockFree body = true) :
    heldThroughout (Event.acquire :: (body ++ [Event.release])) = true := by
  simp [heldThroughout, h]

/-- Steps that release the lock and go on working do not hold it throughout. -/
theorem heldThroughout_rejects_work_after_release :
    heldThroughout [Event.acquire, Event.release, Event.read Field.status] = false
    ∧ heldThroughout [Event.read Field.status, Event.acquire, Event.release] = false
    ∧ heldThroughout [Event.acquire, Event.read Field.status] = false := by
  decide

theorem lockFree_append (s t : List Event) (hs : lockFree s = true) (ht : lockFree t = true) :
    lockFree (s ++ t) = true := by
  simp only [lockFree, List.all_append, Bool.and_eq_true] at *
  exact ⟨hs, ht⟩

/-- `Render` step by step leaves the bar, the writer and the outcome of `Render`. -/
theorem Machine.Render_refines (tbl : GraphicTable) (bar : StatusBar α) (w : Writer) :
    ((Machine.start bar w).Render tbl).1.bar = (bar.Render tbl w).bar
    ∧ ((Machine.start bar w).Render tbl).1.writer = (bar.Render tbl w).writer
    ∧ ((Machine.start bar w).Render tbl).2 = (bar.Render tbl w).result := by
  have hb : (Machine.start bar w).Lock.bar = bar.Lock := Machine.Lock_bar _
  have hw : (Machine.start bar w).Lock.writer = w := Machine.Lock_writer _
  obtain ⟨h1, h2, h3⟩ := Machine.renderBody_refines tbl (Machine.start bar w).Lock bar hb
  rw [hw] at h1 h2 h3
  unfold Machine.Render
  exact ⟨by rw [← h1]; exact Machine.Unlock_bar _, by rw [← h2]; exact Machine.Unlock_writer _, h3⟩

/-- The setters and `Clear` step by step leave the bar and the writer of the
setters and of `Clear`. -/
theorem Machine.others_refine (bar : StatusBar α) (w : Writer) (width : Int) (data : Option α) :
    ((Machine.start bar w).SetWidth width).bar = bar.SetWidth width
    ∧ ((Machine.start bar w).SetWidth width).writer = w
    ∧ ((Machine.start bar w).SetStatus data).bar = bar.SetStatus data
    ∧ ((Machine.start bar w).SetStatus data).writer = w
    ∧ (Machine.start bar w).Clear.bar = (bar.Clear w).1
    ∧ (Machine.start bar w).Clear.writer = (bar.Clear w).2 := by
  rcases bar with ⟨_ | l, f, la, st, wd⟩ <;> exact ⟨rfl, rfl, rfl, rfl, rfl, rfl⟩

/-- With a locker set `Render` holds the lock throughout, on every way out. -/
theorem Machine.Render_held (tbl : GraphicTable) (bar : StatusBar α) (w : Writer) (l : Locker)
    (hl : bar.Locker = some l) :
    heldThroughout ((Machine.start bar w).Render tbl).1.trace = true := by
  rcases bar with ⟨_ | l', f, la, st, wd⟩
  · cases hl
  · obtain ⟨hk, body, hbody, hfree⟩ := Machine.renderBody_trace tbl
      (Machine.start ⟨some l', f, la, st, wd⟩ w).Lock
    have hk' : ((Machine.start ⟨some l', f, la, st, wd⟩ w).Lock.renderBody tbl).1.bar.Locker
        = some { locks := l'.locks + 1, unlocks := l'.unlocks } := hk
    have ht : ((Machine.start ⟨some l', f, la, st, wd⟩ w).Render tbl).1.trace
        = Event.acquire :: (body ++ [Event.release]) := by
      unfold Machine.Render Machine.Unlock
      simp only [hk', hbody]
      rfl
    rw [ht]
    exact heldThroughout_of_body body hfree

/-- Without a locker `Render` does nothing to a locker. -/
theorem Machine.Render_lockFree (tbl : GraphicTable) (bar : StatusBar α) (w : Writer)
    (hl : bar.Locker = none) :
    lockFree ((Machine.start bar w).Render tbl).1.trace = true := by
  rcases bar with ⟨_ | l', f, la, st, wd⟩
  · obtain ⟨hk, body, hbody, hfree⟩ := Machine.renderBody_trace tbl
      (Machine.start ⟨none, f, la, st, wd⟩ w).Lock
    have hk' : ((Machine.start ⟨none, f, la, st, wd⟩ w).Lock.renderBody tbl).1.bar.Locker
        = none := hk
    have ht : ((Machine.start ⟨none, f, la, st, wd⟩ w).Render tbl).1.trace = body := by
      unfold Machine.Render Machine.Unlock
      simp only [hk', hbody]
      rfl
    rw [ht]
    exact hfree
  · cases hl

/-- With a locker set the setters and `Clear` hold the lock throughout; without
one they do nothing to a locker. -/
theorem Machine.others_held (bar : StatusBar α) (w : Writer) (width : Int) (data : Option α) :
    (∀ l : Locker, bar.Locker = some l →
      heldThroughout ((Machine.start bar w).SetWidth width).trace = true
      ∧ heldThroughout ((Machine.start bar w).SetStatus data).trace = true
      ∧ heldThroughout (Machine.start bar w).Clear.trace = true)
    ∧ (bar.Locker = none →
      lockFree ((Machine.start bar w).SetWidth width).trace = true
      ∧ lockFree ((Machine.start bar w).SetStatus data).trace = true
      ∧ lockFree (Machine.start bar w).Clear.trace = true) := by
  rcases bar with ⟨_ | l', f, la, st, wd⟩
  · exact ⟨fun l hl => (by cases hl), fun _ => ⟨rfl, rfl, rfl⟩⟩
  · exact ⟨fun _ _ => ⟨rfl, rfl, rfl⟩, fun hl => (by cases hl)⟩

end Steps

/-! ## The claims -/

section Claims

set_option maxRecDepth 4000

variable {α : Type}

/-- C1 (the code departs from it): `Clear` writes one space for every byte of the
trimmed stored text, not one for every code point. After the text `é` was rendered
the stored visible text is `é` and a carriage return; trimmed it is one code point
in two bytes, and `Clear` writes two spaces and a carriage return. -/
theorem C1_clear_counts_bytes :
    ((barShowing (lit "é") 0).Render exampleTable emptyWriter).bar.last = lit "é\r"
    ∧ (runes (TrimRight (lit "é\r") blanks)).length = 1
    ∧ (TrimRight (lit "é\r") blanks).length = 2
    ∧ (((barShowing (lit "é") 0).Render exampleTable emptyWriter).bar.Clear emptyWriter).2.written
        = [SP, SP, CR] := by
  decide

/-- C2 as stated fails: the text `a`, BEL, `b` is rendered with success, the stored
visible text trimmed has graphic length 2 (BEL is a control character), and the
following `Clear` writes three spaces and a carriage return, not two. -/
theorem C2_counterexample :
    ((barShowing (lit "a\x07b") 0).Render exampleTable emptyWriter).result = .ok
    ∧ graphicLength exampleTable
        (TrimRight ((barShowing (lit "a\x07b") 0).Render exampleTable emptyWriter).bar.last blanks) = 2
    ∧ (((barShowing (lit "a\x07b") 0).Render exampleTable emptyWriter).bar.Clear
          ((barShowing (lit "a\x07b") 0).Render exampleTable emptyWriter).writer).2.written
        = lit "a\x07b\r" ++ [SP, SP, SP, CR]
    ∧ (((barShowing (lit "a\x07b") 0).Render exampleTable emptyWriter).bar.Clear
          ((barShowing (lit "a\x07b") 0).Render exampleTable emptyWriter).writer).2.written
        ≠ lit "a\x07b\r" ++ [SP, SP, CR] := by
  decide

/-- C2, amended: when `Render` succeeds and the stored visible text with trailing
spaces, carriage returns and tabs trimmed consists of single-byte characters, `N`
of them, the following `Clear` writes exactly `N` spaces and a carriage return;
when these characters are all printable, `N` is the graphic length of that text. -/
theorem C2_clear_erases_single_byte_text (tbl : GraphicTable) (bar : StatusBar α) (w : Writer)
    (st : α) (s : GoString) (hst : bar.status = some st) (hfmt : bar.format st = .ok s)
    (hok : (bar.Render tbl w).result = .ok)
    (hascii : ∀ b ∈ TrimRight (bar.Render tbl w).bar.last blanks, b.val < 0x80) :
    ((bar.Render tbl w).bar.Clear (bar.Render tbl w).writer).2.written
        = (bar.Render tbl w).writer.written
          ++ (List.replicate (runes (TrimRight (bar.Render tbl w).bar.last blanks)).length SP ++ [CR])
    ∧ ((∀ b ∈ TrimRight (bar.Render tbl w).bar.last blanks, 0x20 ≤ b.val ∧ b.val ≤ 0x7E) →
        graphicLength tbl (TrimRight (bar.Render tbl w).bar.last blanks)
          = (runes (TrimRight (bar.Render tbl w).bar.last blanks)).length) := by
  have hacc : (bar.Render tbl w).writer.failure = none := by
    cases htext : (if bar.width > 0 ∧ (graphicLength tbl s : Int) > bar.width then
        trimTo s bar.width else some s) with
    | none =>
      rw [(Render_of_panic tbl bar w st s hst hfmt htext).2.2] at hok
      cases hok
    | some text =>
      obtain ⟨_, hwr, hres⟩ := Render_of_text tbl bar w st s text hst hfmt htext
      cases hw : w.failure with
      | none => rw [hwr, Write_accepting w _ hw]; exact hw
      | some e =>
        rw [hres, Write_failing w _ e hw] at hok
        cases hok
  rw [runes_length_ascii _ hascii]
  refine ⟨(Clear_accepting _ _ hacc).1, fun hp => graphicLength_printable tbl _ hp⟩

/-- Witness of C2, amended: after `HELLO` is rendered `Clear` writes five spaces and
a carriage return. -/
theorem C2_clear_erases_single_byte_text_witness :
    ((barShowing (lit "HELLO") 0).Render exampleTable emptyWriter).result = .ok
    ∧ (((barShowing (lit "HELLO") 0).Render exampleTable emptyWriter).bar.Clear
          ((barShowing (lit "HELLO") 0).Render exampleTable emptyWriter).writer).2.written
        = lit "HELLO\r" ++ [SP, SP, SP, SP, SP, CR] := by
  have h := C2_clear_erases_single_byte_text exampleTable (barShowing (lit "HELLO") 0) emptyWriter
    () (lit "HELLO") rfl rfl (by decide) (by decide)
  refine ⟨by decide, ?_⟩
  rw [h.1]
  decide

/-- C3 (the code departs from it): `graphicLength` leaves out `ESC` but counts the
other characters of an escape sequence. The coloured text `redHello` has graphic
length 12, not the 5 of the text without its escape sequences, and at width 5
`Render` truncates it to `ESC`, `[`, the ellipsis and a carriage return. -/
theorem C3_graphicLength_counts_escape_characters :
    graphicLength exampleTable redHello = 12
    ∧ ReplaceAllLiteralString redHello = lit "HELLO"
    ∧ graphicLength exampleTable (ReplaceAllLiteralString redHello) = 5
    ∧ ((barShowing redHello 5).Render exampleTable emptyWriter).writer.written = lit "\x1b[…\r" := by
  decide

/-- C4 (the code departs from it): at width 1 the text `abcd` makes `trimTo` slice
`orig[:-2]`, and `Render` panics with nothing written. -/
theorem C4_render_panics_at_width_one :
    trimTo (lit "abcd") 1 = none
    ∧ ((barShowing (lit "abcd") 1).Render exampleTable emptyWriter).result = .panic
    ∧ ((barShowing (lit "abcd") 1).Render exampleTable emptyWriter).writer = emptyWriter := by
  decide

/-- C5: truncation rule. At a width `w` of at least 3, for a template output `s`
whose graphic length exceeds `w` (it then has at least four code points), `Render`
succeeds whenever the writer accepts, and a successful `Render` writes exactly the
first `w - 3` code points of `s`, the ellipsis and a carriage return. -/
theorem C5_truncation_rule (tbl : GraphicTable) (bar : StatusBar α) (w : Writer) (st : α)
    (s : GoString) (hst : bar.status = some st) (hfmt : bar.format st = .ok s)
    (hw : 3 ≤ bar.width) (hg : bar.width < (graphicLength tbl s : Int)) :
    4 ≤ (runes s).length
    ∧ (w.failure = none → (bar.Render tbl w).result = .ok)
    ∧ ((bar.Render tbl w).result = .ok →
        (bar.Render tbl w).writer.written =
          w.written ++ (encodeRunes ((runes s).take (bar.width - 3).toNat) ++ ellipsis ++ [CR])) := by
  have hle := graphicLength_le_runes tbl s
  have htext : (if bar.width > 0 ∧ (graphicLength tbl s : Int) > bar.width then
      trimTo s bar.width else some s)
      = some (encodeRunes ((runes s).take (bar.width - 3).toNat) ++ ellipsis) := by
    have hc : bar.width > 0 ∧ (graphicLength tbl s : Int) > bar.width := ⟨by omega, hg⟩
    rw [if_pos hc]
    exact trimTo_of_wide tbl s bar.width hw hg
  obtain ⟨h1, h2, _, _⟩ := Render_text_summary tbl bar w st s _ hst hfmt htext
  exact ⟨by omega, h1, h2⟩

/-- Witness of C5: width 6 and the text `HELLOWORLD` give `HEL…` and a carriage
return. -/
theorem C5_truncation_rule_witness :
    ((barShowing (lit "HELLOWORLD") 6).Render exampleTable emptyWriter).result = .ok
    ∧ ((barShowing (lit "HELLOWORLD") 6).Render exampleTable emptyWriter).writer.written
        = lit "HEL…\r" := by
  have h := C5_truncation_rule exampleTable (barShowing (lit "HELLOWORLD") 6) emptyWriter ()
    (lit "HELLOWORLD") rfl rfl (by decide) (by decide)
  refine ⟨h.2.1 rfl, ?_⟩
  rw [h.2.2 (h.2.1 rfl)]
  decide

/-- C6 as stated fails: every `ESC` of `redHello` begins a complete escape
sequence, yet at width 5 the line written is `ESC`, `[`, the ellipsis and a
carriage return, whose `ESC` begins no escape sequence, and the stored visible
text contains that `ESC`. -/
theorem C6_counterexample :
    escapesComplete redHello = true
    ∧ ((barShowing redHello 5).Render exampleTable emptyWriter).result = .ok
    ∧ ((barShowing redHello 5).Render exampleTable emptyWriter).writer.written = lit "\x1b[…\r"
    ∧ escapesComplete ((barShowing redHello 5).Render exampleTable emptyWriter).writer.written = false
    ∧ ESC ∈ ((barShowing redHello 5).Render exampleTable emptyWriter).bar.last := by
  decide

/-- C6, amended: for a template output in which every `ESC` begins a complete
escape sequence, when the text is not truncated, or is truncated and every `ESC`
among the first `w - 3` code points kept begins an escape sequence that is
complete within them, the line written by a successful `Render` has every `ESC`
beginning a complete escape sequence and the stored visible text contains no
`ESC`. -/
theorem C6_whole_escapes_survive (tbl : GraphicTable) (bar : StatusBar α) (w : Writer) (st : α)
    (s : GoString) (hst : bar.status = some st) (hfmt : bar.format st = .ok s)
    (hcomplete : escapesComplete s = true)
    (hcut : (0 < bar.width ∧ bar.width < (graphicLength tbl s : Int) ∧ 4 ≤ (runes s).length) →
      escapesComplete (encodeRunes ((runes s).take (bar.width - 3).toNat)) = true)
    (hok : (bar.Render tbl w).result = .ok) :
    ∃ line, (bar.Render tbl w).writer.written = w.written ++ line
      ∧ escapesComplete line = true
      ∧ ESC ∉ (bar.Render tbl w).bar.last := by
  have hnp : ¬ (bar.Render tbl w).result = .panic := by rw [hok]; exact fun h => nomatch h
  have key : ∃ text, (if bar.width > 0 ∧ (graphicLength tbl s : Int) > bar.width then
      trimTo s bar.width else some s) = some text ∧ escapesComplete (text ++ [CR]) = true := by
    by_cases hc : bar.width > 0 ∧ (graphicLength tbl s : Int) > bar.width
    · rw [if_pos hc]
      by_cases h4 : (runes s).length < 4
      · exact ⟨s, trimTo_of_short s _ h4, escapesComplete_append s [CR] hcomplete (by decide)⟩
      · have hpre := hcut ⟨hc.1, hc.2, by omega⟩
        have h3 : 3 ≤ bar.width := by
          by_contra hlt
          exact hnp ((Render_panic_iff tbl bar w).mpr
            ⟨st, s, hst, hfmt, hc.1, by omega, hc.2, by omega⟩)
        refine ⟨_, trimTo_of_wide tbl s bar.width h3 hc.2, ?_⟩
        rw [List.append_assoc]
        exact escapesComplete_append _ _ hpre (by decide)
    · rw [if_neg hc]
      exact ⟨s, rfl, escapesComplete_append s [CR] hcomplete (by decide)⟩
  obtain ⟨text, htext, hline⟩ := key
  obtain ⟨_, h2, _, h4⟩ := Render_text_summary tbl bar w st s text hst hfmt htext
  refine ⟨text ++ [CR], h2 hok, hline, ?_⟩
  rw [h4]
  exact ReplaceAll_no_ESC _ hline

/-- Witness of C6, amended: the coloured text `redHelloWorld` at width 10 keeps its
first seven code points, the opening escape sequence among them; the line written
is that sequence, `HE`, the ellipsis and a carriage return, and the stored visible
text is `HE`, the ellipsis and a carriage return. -/
theorem C6_whole_escapes_survive_witness :
    ((barShowing redHelloWorld 10).Render exampleTable emptyWriter).writer.written
        = lit "\x1b[31mHE…\r"
    ∧ ((barShowing redHelloWorld 10).Render exampleTable emptyWriter).bar.last = lit "HE…\r"
    ∧ ∃ line, ((barShowing redHelloWorld 10).Render exampleTable emptyWriter).writer.written
          = emptyWriter.written ++ line
        ∧ escapesComplete line = true
        ∧ ESC ∉ ((barShowing redHelloWorld 10).Render exampleTable emptyWriter).bar.last :=
  ⟨by decide, by decide,
    C6_whole_escapes_survive exampleTable (barShowing redHelloWorld 10) emptyWriter ()
      redHelloWorld rfl rfl (by decide) (by decide) (by decide)⟩

/-- C7: template failure leaves state untouched. When executing the template on
the payload fails, `Render` returns a failure whose message is the
template-execution prefix followed by the cause, the writer is as before, and
the stored visible text, the payload, the width and the template are as before. -/
theorem C7_template_failure_leaves_state (tbl : GraphicTable) (bar : StatusBar α) (w : Writer)
    (st : α) (e : String) (hst : bar.status = some st) (hfmt : bar.format st = .error e) :
    (bar.Render tbl w).result = .error ("error during rendering status bar: " ++ e)
    ∧ (bar.Render tbl w).writer = w
    ∧ (bar.Render tbl w).bar.last = bar.last
    ∧ (bar.Render tbl w).bar.status = bar.status
    ∧ (bar.Render tbl w).bar.width = bar.width
    ∧ (bar.Render tbl w).bar.format = bar.format := by
  unfold StatusBar.Render
  simp only [Lock_status, Lock_format, hst, hfmt]
  simp [hst]

/-- Witness of C7: a bar that shows `HEL…` and whose template then fails. -/
theorem C7_template_failure_leaves_state_witness :
    (barFailing.Render exampleTable emptyWriter).result
        = .error "error during rendering status bar: no such field"
    ∧ (barFailing.Render exampleTable emptyWriter).writer = emptyWriter
    ∧ (barFailing.Render exampleTable emptyWriter).bar.last = lit "HEL…\r" := by
  have h := C7_template_failure_leaves_state exampleTable barFailing emptyWriter ()
    "no such field" rfl rfl
  exact ⟨h.1, h.2.1, h.2.2.1⟩

/-- C8: no payload, no output. On a bar without payload `Render` returns success,
the writer is as before and every field of the bar is as before (a locker that
is set has been locked and unlocked once; without a locker the bar is the same
value); on a bar fresh from `NewStatusBar` the stored visible text stays empty. -/
theorem C8_no_payload_no_output (tbl : GraphicTable) (bar : StatusBar α) (w : Writer)
    (hst : bar.status = none) :
    (bar.Render tbl w).result = .ok
    ∧ (bar.Render tbl w).writer = w
    ∧ (bar.Render tbl w).bar.last = bar.last
    ∧ (bar.Render tbl w).bar.status = bar.status
    ∧ (bar.Render tbl w).bar.width = bar.width
    ∧ (bar.Render tbl w).bar.format = bar.format
    ∧ (bar.Render tbl w).bar.Locker.isSome = bar.Locker.isSome
    ∧ (bar.Locker = none → (bar.Render tbl w).bar = bar)
    ∧ (∀ format : Template α, ((NewStatusBar format).Render tbl w).bar.last = []) := by
  have hr : ∀ b : StatusBar α, b.status = none → b.Render tbl w = ⟨b.Lock.Unlock, w, .ok⟩ := by
    intro b hb
    unfold StatusBar.Render
    simp only [Lock_status, hb]
  rw [hr bar hst]
  refine ⟨rfl, rfl, by simp, by simp, by simp, by simp, Lock_Unlock_isSome bar,
    Lock_Unlock_of_no_locker bar, ?_⟩
  intro format
  rw [hr (NewStatusBar format) rfl]
  rfl

/-- Witness of C8: a new bar rendered into a writer that has received nothing. -/
theorem C8_no_payload_no_output_witness :
    ((NewStatusBar (fun _ : Unit => Except.ok (lit "HELLO"))).Render exampleTable emptyWriter).result
        = .ok
    ∧ ((NewStatusBar (fun _ : Unit => Except.ok (lit "HELLO"))).Render exampleTable emptyWriter).writer
        = emptyWriter
    ∧ ((NewStatusBar (fun _ : Unit => Except.ok (lit "HELLO"))).Render exampleTable emptyWriter).bar.last
        = [] := by
  have h := C8_no_payload_no_output exampleTable
    (NewStatusBar (fun _ : Unit => Except.ok (lit "HELLO"))) emptyWriter rfl
  exact ⟨h.1, h.2.1, h.2.2.1⟩

/-- C9: stored visible text. After a `Render` whose template execution succeeds
and which returns, the stored visible text is the buffer handed to the writer
(the template output or its truncation, then a carriage return) with the matches
of `escapeSequenceRegexp` removed: it is a subsequence of that buffer in which the
pattern matches nowhere. -/
theorem C9_stored_visible_text (tbl : GraphicTable) (bar : StatusBar α) (w : Writer) (st : α)
    (s : GoString) (hst : bar.status = some st) (hfmt : bar.format st = .ok s)
    (hret : (bar.Render tbl w).result ≠ .panic) :
    ∃ text, (text = s ∨ trimTo s bar.width = some text)
      ∧ (bar.Render tbl w).writer = (w.Write (text ++ [CR])).1
      ∧ (bar.Render tbl w).bar.last = ReplaceAllLiteralString (text ++ [CR])
      ∧ ((bar.Render tbl w).bar.last).Sublist (text ++ [CR])
      ∧ matchFree (bar.Render tbl w).bar.last = true := by
  cases htext : (if bar.width > 0 ∧ (graphicLength tbl s : Int) > bar.width then
      trimTo s bar.width else some s) with
  | none => exact absurd (Render_of_panic tbl bar w st s hst hfmt htext).2.2 hret
  | some text =>
    obtain ⟨hbar, hwr, _⟩ := Render_of_text tbl bar w st s text hst hfmt htext
    have hlast : (bar.Render tbl w).bar.last = ReplaceAllLiteralString (text ++ [CR]) := by
      rw [hbar]; simp
    refine ⟨text, ?_, hwr, hlast, ?_, ?_⟩
    · split at htext
      · exact Or.inr htext
      · exact Or.inl (Option.some.inj htext).symm
    · rw [hlast]; exact ReplaceAll_sublist _
    · rw [hlast]; exact ReplaceAll_matchFree _

/-- Witness of C9: for the template output `redHello` without truncation the
stored visible text is `HELLO` and a carriage return. -/
theorem C9_stored_visible_text_witness :
    ((barShowing redHello 0).Render exampleTable emptyWriter).writer.written = redHello ++ [CR]
    ∧ ((barShowing redHello 0).Render exampleTable emptyWriter).bar.last = lit "HELLO\r"
    ∧ ∃ text, (text = redHello ∨ trimTo redHello (barShowing redHello 0).width = some text)
      ∧ ((barShowing redHello 0).Render exampleTable emptyWriter).writer
          = (emptyWriter.Write (text ++ [CR])).1
      ∧ ((barShowing redHello 0).Render exampleTable emptyWriter).bar.last
          = ReplaceAllLiteralString (text ++ [CR])
      ∧ (((barShowing redHello 0).Render exampleTable emptyWriter).bar.last).Sublist (text ++ [CR])
      ∧ matchFree ((barShowing redHello 0).Render exampleTable emptyWriter).bar.last = true :=
  ⟨by decide, by decide,
    C9_stored_visible_text exampleTable (barShowing redHello 0) emptyWriter () redHello rfl rfl
      (by decide)⟩

/-- C10: short-text exemption. For every width and every template output `s` of
fewer than four code points, `Render` does not panic, succeeds whenever the writer
accepts, and a successful `Render` writes exactly `s` and a carriage return. -/
theorem C10_short_text_exemption (tbl : GraphicTable) (bar : StatusBar α) (w : Writer) (st : α)
    (s : GoString) (hst : bar.status = some st) (hfmt : bar.format st = .ok s)
    (hshort : (runes s).length < 4) :
    (w.failure = none → (bar.Render tbl w).result = .ok)
    ∧ ((bar.Render tbl w).result = .ok →
        (bar.Render tbl w).writer.written = w.written ++ (s ++ [CR]))
    ∧ (bar.Render tbl w).result ≠ .panic := by
  have htext : (if bar.width > 0 ∧ (graphicLength tbl s : Int) > bar.width then
      trimTo s bar.width else some s) = some s := by
    split
    · exact trimTo_of_short s bar.width hshort
    · rfl
  obtain ⟨h1, h2, h3, _⟩ := Render_text_summary tbl bar w st s s hst hfmt htext
  exact ⟨h1, h2, h3⟩

/-- Witness of C10: the three characters `abc` at width 1 are written whole. -/
theorem C10_short_text_exemption_witness :
    (1 : Int) < (graphicLength exampleTable (lit "abc") : Int)
    ∧ ((barShowing (lit "abc") 1).Render exampleTable emptyWriter).result = .ok
    ∧ ((barShowing (lit "abc") 1).Render exampleTable emptyWriter).writer.written = lit "abc\r" := by
  have h := C10_short_text_exemption exampleTable (barShowing (lit "abc") 1) emptyWriter ()
    (lit "abc") rfl rfl (by decide)
  refine ⟨by decide, h.1 rfl, ?_⟩
  rw [h.2.1 (h.1 rfl)]
  decide

/-- C11: non-positive width disables truncation. For every width of 0 or below,
and for every positive width that the graphic length of the template output `s`
does not exceed, `Render` does not panic, succeeds whenever the writer accepts,
and a successful `Render` writes exactly `s` and a carriage return; a bar fresh
from `NewStatusBar` has width 0. -/
theorem C11_no_truncation (tbl : GraphicTable) (bar : StatusBar α) (w : Writer) (st : α)
    (s : GoString) (hst : bar.status = some st) (hfmt : bar.format st = .ok s)
    (hwidth : bar.width ≤ 0 ∨ (graphicLength tbl s : Int) ≤ bar.width) :
    (w.failure = none → (bar.Render tbl w).result = .ok)
    ∧ ((bar.Render tbl w).result = .ok →
        (bar.Render tbl w).writer.written = w.written ++ (s ++ [CR]))
    ∧ (bar.Render tbl w).result ≠ .panic
    ∧ (∀ format : Template α, (NewStatusBar format).width = 0) := by
  obtain ⟨h1, h2, h3, _⟩ := Render_text_summary tbl bar w st s s hst hfmt
    (text_of_uncut tbl bar.width s hwidth)
  exact ⟨h1, h2, h3, fun _ => rfl⟩

/-- Witness of C11: at width 0 the ten characters of `HELLOWORLD` are written
whole, and so are they at width 10. -/
theorem C11_no_truncation_witness :
    ((barShowing (lit "HELLOWORLD") 0).Render exampleTable emptyWriter).writer.written
        = lit "HELLOWORLD\r"
    ∧ ((barShowing (lit "HELLOWORLD") 10).Render exampleTable emptyWriter).writer.written
        = lit "HELLOWORLD\r" := by
  have h0 := C11_no_truncation exampleTable (barShowing (lit "HELLOWORLD") 0) emptyWriter ()
    (lit "HELLOWORLD") rfl rfl (by decide)
  have h10 := C11_no_truncation exampleTable (barShowing (lit "HELLOWORLD") 10) emptyWriter ()
    (lit "HELLOWORLD") rfl rfl (by decide)
  refine ⟨?_, ?_⟩
  · rw [h0.2.1 (h0.1 rfl)]; decide
  · rw [h10.2.1 (h10.1 rfl)]; decide

/-- C12: carriage-return framing. When `Render` succeeds with a payload set, what
it writes is the template output or its truncation followed by exactly one
carriage return: the bytes written are not empty, their last byte is the carriage
return, and what `Render` appends is no newline. -/
theorem C12_carriage_return_framing (tbl : GraphicTable) (bar : StatusBar α) (w : Writer)
    (st : α) (s : GoString) (hst : bar.status = some st) (hfmt : bar.format st = .ok s)
    (hok : (bar.Render tbl w).result = .ok) :
    ∃ text, (text = s ∨ trimTo s bar.width = some text)
      ∧ (bar.Render tbl w).writer.written = w.written ++ (text ++ [CR])
      ∧ text ++ [CR] ≠ []
      ∧ (text ++ [CR]).getLast? = some CR
      ∧ CR ≠ LF := by
  have hret : (bar.Render tbl w).result ≠ .panic := by rw [hok]; exact fun h => nomatch h
  obtain ⟨text, hor, htext⟩ := text_of_returning tbl bar w st s hst hfmt hret
  obtain ⟨_, h2, _, _⟩ := Render_text_summary tbl bar w st s text hst hfmt htext
  exact ⟨text, hor, h2 hok, by simp, by simp, by decide⟩

/-- Witness of C12: `HELLOWORLD` at width 6 is written as `HEL`, the ellipsis and
one carriage return. -/
theorem C12_carriage_return_framing_witness :
    ((barShowing (lit "HELLOWORLD") 6).Render exampleTable emptyWriter).writer.written
        = lit "HEL…" ++ [CR]
    ∧ ∃ text, (text = lit "HELLOWORLD"
          ∨ trimTo (lit "HELLOWORLD") (barShowing (lit "HELLOWORLD") 6).width = some text)
      ∧ ((barShowing (lit "HELLOWORLD") 6).Render exampleTable emptyWriter).writer.written
          = emptyWriter.written ++ (text ++ [CR])
      ∧ text ++ [CR] ≠ []
      ∧ (text ++ [CR]).getLast? = some CR
      ∧ CR ≠ LF :=
  ⟨by decide,
    C12_carriage_return_framing exampleTable (barShowing (lit "HELLOWORLD") 6) emptyWriter ()
      (lit "HELLOWORLD") rfl rfl (by decide)⟩

/-- C13: `Clear` resets the erase state. After every `Clear` the stored visible
text is empty; a `Clear` on a bar whose stored visible text is empty (a new bar, or
a bar just cleared) hands the writer one buffer that holds a single carriage
return and no space, which an accepting writer appends to what it has. -/
theorem C13_clear_resets (bar : StatusBar α) (w : Writer) :
    (bar.Clear w).1.last = []
    ∧ (bar.last = [] → (bar.Clear w).2 = (w.Write [CR]).1)
    ∧ ((bar.Clear w).1.Clear (bar.Clear w).2).2 = ((bar.Clear w).2.Write [CR]).1
    ∧ (∀ format : Template α, ((NewStatusBar format).Clear w).2 = (w.Write [CR]).1)
    ∧ (∀ v : Writer, v.failure = none → (v.Write [CR]).1.written = v.written ++ [CR]) := by
  have hlast : ∀ b : StatusBar α, ∀ v : Writer, (b.Clear v).1.last = [] := by
    intro b v
    unfold StatusBar.Clear
    simp
  have hempty : ∀ b : StatusBar α, ∀ v : Writer, b.last = [] →
      (b.Clear v).2 = (v.Write [CR]).1 := by
    intro b v hb
    unfold StatusBar.Clear
    simp only [Lock_last, hb]
    rfl
  refine ⟨hlast bar w, hempty bar w, hempty _ _ (hlast bar w), fun f => hempty _ w rfl, ?_⟩
  intro v hv
  rw [Write_accepting v _ hv]

/-- C13 on an example: after `HELLO` is rendered the first `Clear` writes five
spaces and a carriage return, the second only a carriage return. -/
theorem C13_clear_resets_witness :
    (((barShowing (lit "HELLO") 0).Render exampleTable emptyWriter).bar.Clear emptyWriter).2.written
        = [SP, SP, SP, SP, SP, CR]
    ∧ ((((barShowing (lit "HELLO") 0).Render exampleTable emptyWriter).bar.Clear emptyWriter).1.Clear
          emptyWriter).2.written = [CR]
    ∧ ((NewStatusBar (fun _ : Unit => Except.ok (lit "HELLO"))).Clear emptyWriter).2.written = [CR] := by
  have h := C13_clear_resets
    (((barShowing (lit "HELLO") 0).Render exampleTable emptyWriter).bar.Clear emptyWriter).1
    emptyWriter
  refine ⟨by decide, ?_, ?_⟩
  · rw [h.2.1 (by decide)]; decide
  · rw [(C13_clear_resets (NewStatusBar (fun _ : Unit => Except.ok (lit "HELLO")))
      emptyWriter).2.2.2.1]
    decide

/-- C14: sink write failure. With a payload on which the template succeeds and a
writer that rejects the write with the error `e`, a `Render` that reaches the
write returns a failure whose message is the write-failure prefix followed by
`e`, a message no template failure has; nothing is added to the writer, and the
stored visible text is already the buffer of this render without its escape
sequences. -/
theorem C14_write_failure (tbl : GraphicTable) (bar : StatusBar α) (w : Writer) (st : α)
    (s : GoString) (e : String) (hst : bar.status = some st) (hfmt : bar.format st = .ok s)
    (hrej : w.failure = some e) (hret : (bar.Render tbl w).result ≠ .panic) :
    (bar.Render tbl w).result = .error ("can't write status bar: " ++ e)
    ∧ (∀ e' : String, (bar.Render tbl w).result
          ≠ .error ("error during rendering status bar: " ++ e'))
    ∧ (bar.Render tbl w).writer.written = w.written
    ∧ ∃ text, (text = s ∨ trimTo s bar.width = some text)
        ∧ (bar.Render tbl w).writer = (w.Write (text ++ [CR])).1
        ∧ (bar.Render tbl w).bar.last = ReplaceAllLiteralString (text ++ [CR]) := by
  obtain ⟨text, hor, htext⟩ := text_of_returning tbl bar w st s hst hfmt hret
  obtain ⟨hbar, hwr, hres⟩ := Render_of_text tbl bar w st s text hst hfmt htext
  have hres' : (bar.Render tbl w).result = .error ("can't write status bar: " ++ e) := by
    rw [hres, Write_failing w _ e hrej]
  refine ⟨hres', ?_, ?_, text, hor, hwr, ?_⟩
  · intro e' h
    rw [hres'] at h
    exact write_message_ne_template_message e e' (Outcome.error.inj h)
  · rw [hwr, Write_failing w _ e hrej]
  · rw [hbar]; simp

/-- Witness of C14: `redHello` rendered into a writer that rejects every write. -/
theorem C14_write_failure_witness :
    ((barShowing redHello 0).Render exampleTable brokenWriter).result
        = .error "can't write status bar: closed pipe"
    ∧ ((barShowing redHello 0).Render exampleTable brokenWriter).writer.written = []
    ∧ ((barShowing redHello 0).Render exampleTable brokenWriter).bar.last = lit "HELLO\r" := by
  have h := C14_write_failure exampleTable (barShowing redHello 0) brokenWriter () redHello
    "closed pipe" rfl rfl rfl (by decide)
  exact ⟨h.1, h.2.2.1, by decide⟩

/-- C15: `SetStatus` and `SetWidth` only affect the next render. `SetStatus` sets
the payload and leaves the width, the template and the stored visible text as
they are; `SetWidth` sets the width and leaves the payload, the template and the
stored visible text as they are; neither has a writer to write to, and a `Clear`
after either of them does to a writer what it would have done before. -/
theorem C15_setters_frame (bar : StatusBar α) (data : Option α) (width : Int) (w : Writer) :
    ((bar.SetStatus data).status = data
      ∧ (bar.SetStatus data).width = bar.width
      ∧ (bar.SetStatus data).format = bar.format
      ∧ (bar.SetStatus data).last = bar.last
      ∧ ((bar.SetStatus data).Clear w).2 = (bar.Clear w).2)
    ∧ ((bar.SetWidth width).width = width
      ∧ (bar.SetWidth width).status = bar.status
      ∧ (bar.SetWidth width).format = bar.format
      ∧ (bar.SetWidth width).last = bar.last
      ∧ ((bar.SetWidth width).Clear w).2 = (bar.Clear w).2) := by
  refine ⟨⟨?_, ?_, ?_, ?_, ?_⟩, ⟨?_, ?_, ?_, ?_, ?_⟩⟩ <;>
    simp [StatusBar.SetStatus, StatusBar.SetWidth, StatusBar.Clear]

/-- C15 on an example: after `HELLO` was rendered, setting another payload or
another width leaves the five spaces and the carriage return of `Clear` as they
were. -/
theorem C15_setters_frame_witness :
    ((((barShowing (lit "HELLO") 0).Render exampleTable emptyWriter).bar.SetStatus none).Clear
        emptyWriter).2.written = [SP, SP, SP, SP, SP, CR]
    ∧ ((((barShowing (lit "HELLO") 0).Render exampleTable emptyWriter).bar.SetWidth 3).Clear
        emptyWriter).2.written = [SP, SP, SP, SP, SP, CR] := by
  have h := C15_setters_frame ((barShowing (lit "HELLO") 0).Render exampleTable emptyWriter).bar
    none 3 emptyWriter
  refine ⟨?_, ?_⟩
  · rw [h.1.2.2.2.2]; decide
  · rw [h.2.2.2.2.2]; decide

/-- C17: lock discipline. With a locker set, each of `SetWidth`, `SetStatus`,
`Render` and `Clear` acquires it first, before it reads or writes any of the
fields `format`, `last`, `status`, `width`, executes the template or calls the
writer, and releases it last, on every way out (for `Render`: no payload,
template failure, write failure, success, and the panic of `trimTo`), with no
other operation on the locker between the two: the locker has been locked once
more and unlocked once more than before, and a locker that was unlocked as often
as locked is so again after the call. Without a locker the four operations do
nothing to a locker and leave the bar without one. The steps are those of the
operations taken one by one, which leave the same bar, writer and outcome as the
operations. -/
theorem C17_lock_discipline (tbl : GraphicTable) (bar : StatusBar α) (w : Writer) (width : Int)
    (data : Option α) :
    (∀ l : Locker, bar.Locker = some l →
      (bar.SetWidth width).Locker = some { locks := l.locks + 1, unlocks := l.unlocks + 1 }
      ∧ (bar.SetStatus data).Locker = some { locks := l.locks + 1, unlocks := l.unlocks + 1 }
      ∧ (bar.Render tbl w).bar.Locker = some { locks := l.locks + 1, unlocks := l.unlocks + 1 }
      ∧ (bar.Clear w).1.Locker = some { locks := l.locks + 1, unlocks := l.unlocks + 1 })
    ∧ (balanced bar.Locker = true →
      balanced (bar.SetWidth width).Locker = true
      ∧ balanced (bar.SetStatus data).Locker = true
      ∧ balanced (bar.Render tbl w).bar.Locker = true
      ∧ balanced (bar.Clear w).1.Locker = true)
    ∧ (bar.Locker = none →
      (bar.SetWidth width).Locker = none
      ∧ (bar.SetStatus data).Locker = none
      ∧ (bar.Render tbl w).bar.Locker = none
      ∧ (bar.Clear w).1.Locker = none)
    ∧ (((Machine.start bar w).SetWidth width).bar = bar.SetWidth width
      ∧ ((Machine.start bar w).SetStatus data).bar = bar.SetStatus data
      ∧ ((Machine.start bar w).Render tbl).1.bar = (bar.Render tbl w).bar
      ∧ ((Machine.start bar w).Render tbl).1.writer = (bar.Render tbl w).writer
      ∧ ((Machine.start bar w).Render tbl).2 = (bar.Render tbl w).result
      ∧ (Machine.start bar w).Clear.bar = (bar.Clear w).1
      ∧ (Machine.start bar w).Clear.writer = (bar.Clear w).2)
    ∧ (∀ l : Locker, bar.Locker = some l →
      heldThroughout ((Machine.start bar w).SetWidth width).trace = true
      ∧ heldThroughout ((Machine.start bar w).SetStatus data).trace = true
      ∧ heldThroughout ((Machine.start bar w).Render tbl).1.trace = true
      ∧ heldThroughout (Machine.start bar w).Clear.trace = true)
    ∧ (bar.Locker = none →
      lockFree ((Machine.start bar w).SetWidth width).trace = true
      ∧ lockFree ((Machine.start bar w).SetStatus data).trace = true
      ∧ lockFree ((Machine.start bar w).Render tbl).1.trace = true
      ∧ lockFree (Machine.start bar w).Clear.trace = true) := by
  have hw : (bar.SetWidth width).Locker = bar.Lock.Unlock.Locker := Lock_Unlock_with_width bar _
  have hs : (bar.SetStatus data).Locker = bar.Lock.Unlock.Locker := Lock_Unlock_with_status bar _
  have href := Machine.others_refine bar w width data
  have hren := Machine.Render_refines tbl bar w
  have hheld := Machine.others_held bar w width data
  rw [hw, hs, Render_Locker, Clear_Locker]
  refine ⟨?_, ?_, ?_, ?_, ?_, ?_⟩
  · intro l hl
    have h := Lock_Unlock_of_locker bar l hl
    exact ⟨h, h, h, h⟩
  · intro hb
    have h : balanced bar.Lock.Unlock.Locker = true := by
      cases hl : bar.Locker with
      | none => rw [Lock_Unlock_of_no_locker bar hl, hl]; rfl
      | some l =>
        rw [hl] at hb
        rw [Lock_Unlock_of_locker bar l hl]
        simp only [balanced, beq_iff_eq] at hb ⊢
        omega
    exact ⟨h, h, h, h⟩
  · intro hn
    have h : bar.Lock.Unlock.Locker = none := by rw [Lock_Unlock_of_no_locker bar hn]; exact hn
    exact ⟨h, h, h, h⟩
  · exact ⟨href.1, href.2.2.1, hren.1, hren.2.1, hren.2.2, href.2.2.2.2.1, href.2.2.2.2.2⟩
  · intro l hl
    obtain ⟨h1, h2, h3⟩ := hheld.1 l hl
    exact ⟨h1, h2, Machine.Render_held tbl bar w l hl, h3⟩
  · intro hn
    obtain ⟨h1, h2, h3⟩ := hheld.2 hn
    exact ⟨h1, h2, Machine.Render_lockFree tbl bar w hn, h3⟩

/-- C17 on examples, with a locker not used before: the steps of a `Render` that
succeeds, of one without payload, of one whose template fails, of one whose write
is rejected and of one that panics all begin with the acquisition and end with
the release, and the locker has then been locked once and unlocked once; so do
the steps of `Clear`. Without a locker the steps hold no operation on one. -/
theorem C17_lock_discipline_witness :
    ((Machine.start ((barShowing (lit "HELLO") 0).SetLock freshLocker) emptyWriter).Render
        exampleTable).1.trace
      = [.acquire, .read .status, .read .format, .read .status, .execute, .read .width,
          .write .last, .output, .release]
    ∧ ((Machine.start ((NewStatusBar (fun _ : Unit => Except.ok (lit "HELLO"))).SetLock freshLocker)
        emptyWriter).Render exampleTable).1.trace
      = [.acquire, .read .status, .release]
    ∧ ((Machine.start (barFailing.SetLock freshLocker) emptyWriter).Render exampleTable).1.trace
      = [.acquire, .read .status, .read .format, .read .status, .execute, .release]
    ∧ ((Machine.start ((barShowing (lit "HELLO") 0).SetLock freshLocker) brokenWriter).Render
        exampleTable).2 = .error "can't write status bar: closed pipe"
    ∧ ((Machine.start ((barShowing (lit "HELLO") 0).SetLock freshLocker) brokenWriter).Render
        exampleTable).1.trace
      = [.acquire, .read .status, .read .format, .read .status, .execute, .read .width,
          .write .last, .output, .release]
    ∧ ((Machine.start ((barShowing (lit "abcd") 1).SetLock freshLocker) emptyWriter).Render
        exampleTable).2 = .panic
    ∧ ((Machine.start ((barShowing (lit "abcd") 1).SetLock freshLocker) emptyWriter).Render
        exampleTable).1.trace
      = [.acquire, .read .status, .read .format, .read .status, .execute, .read .width,
          .read .width, .read .width, .release]
    ∧ (((barShowing (lit "abcd") 1).SetLock freshLocker).Render exampleTable emptyWriter).bar.Locker
        = some { locks := 1, unlocks := 1 }
    ∧ (Machine.start ((barShowing (lit "HELLO") 0).SetLock freshLocker) emptyWriter).Clear.trace
      = [.acquire, .read .last, .output, .write .last, .release]
    ∧ ((Machine.start (barShowing (lit "HELLO") 0) emptyWriter).Render exampleTable).1.trace
      = [.read .status, .read .format, .read .status, .execute, .read .width,
          .write .last, .output]
    ∧ heldThroughout ((Machine.start ((barShowing (lit "abcd") 1).SetLock freshLocker)
        emptyWriter).Render exampleTable).1.trace = true :=
  ⟨by decide, by decide, by decide, by decide, by decide, by decide, by decide,
   ((C17_lock_discipline exampleTable ((barShowing (lit "abcd") 1).SetLock freshLocker)
      emptyWriter 0 none).1 freshLocker rfl).2.2.1,
   by decide, by decide,
   ((C17_lock_discipline exampleTable ((barShowing (lit "abcd") 1).SetLock freshLocker)
      emptyWriter 0 none).2.2.2.2.1 freshLocker rfl).2.2.1⟩

/-- C18: width bound of the emitted line. At a width `w` of at least 3 the line a
successful `Render` writes (text and carriage return) has graphic length at most
`w`; when the graphic length of the template output exceeds `w`, so that the text
is truncated, the text written in front of the carriage return has exactly
`w - 2` code points. -/
theorem C18_width_bound (tbl : GraphicTable) (bar : StatusBar α) (w : Writer) (st : α)
    (s : GoString) (hst : bar.status = some st) (hfmt : bar.format st = .ok s)
    (hw : 3 ≤ bar.width) (hok : (bar.Render tbl w).result = .ok) :
    ∃ text, (bar.Render tbl w).writer.written = w.written ++ (text ++ [CR])
      ∧ (graphicLength tbl (text ++ [CR]) : Int) ≤ bar.width
      ∧ (bar.width < (graphicLength tbl s : Int) → ((runes text).length : Int) = bar.width - 2) := by
  have hle := graphicLength_le_runes tbl s
  by_cases hg : bar.width < (graphicLength tbl s : Int)
  · have htext : (if bar.width > 0 ∧ (graphicLength tbl s : Int) > bar.width then
        trimTo s bar.width else some s)
        = some (encodeRunes ((runes s).take (bar.width - 3).toNat) ++ ellipsis) := by
      rw [if_pos ⟨by omega, hg⟩]
      exact trimTo_of_wide tbl s bar.width hw hg
    obtain ⟨_, h2, _, _⟩ := Render_text_summary tbl bar w st s _ hst hfmt htext
    refine ⟨_, h2 hok, ?_, fun _ => ?_⟩
    · have := graphicLength_truncation_le tbl s (bar.width - 3).toNat
      omega
    · rw [runes_truncation]
      simp only [List.length_append, List.length_take, List.length_singleton]
      omega
  · obtain ⟨_, h2, _, _⟩ := Render_text_summary tbl bar w st s s hst hfmt
      (text_of_uncut tbl bar.width s (Or.inr (by omega)))
    refine ⟨s, h2 hok, ?_, fun h => absurd h hg⟩
    rw [graphicLength_append_CR]
    omega

/-- Witness of C18: at width 6 the line written for `HELLOWORLD` holds `HEL` and
the ellipsis, four code points and four graphic ones. -/
theorem C18_width_bound_witness :
    ((barShowing (lit "HELLOWORLD") 6).Render exampleTable emptyWriter).writer.written
        = lit "HEL…" ++ [CR]
    ∧ graphicLength exampleTable (lit "HEL…" ++ [CR]) = 4
    ∧ (runes (lit "HEL…")).length = 4
    ∧ ∃ text, ((barShowing (lit "HELLOWORLD") 6).Render exampleTable emptyWriter).writer.written
          = emptyWriter.written ++ (text ++ [CR])
        ∧ (graphicLength exampleTable (text ++ [CR]) : Int) ≤ (barShowing (lit "HELLOWORLD") 6).width
        ∧ ((barShowing (lit "HELLOWORLD") 6).width
              < (graphicLength exampleTable (lit "HELLOWORLD") : Int) →
            ((runes text).length : Int) = (barShowing (lit "HELLOWORLD") 6).width - 2) :=
  ⟨by decide, by decide, by decide,
    C18_width_bound exampleTable (barShowing (lit "HELLOWORLD") 6) emptyWriter ()
      (lit "HELLOWORLD") rfl rfl (by decide) (by decide)⟩

/-- C19: escape stripping is idempotent. In the text that
`ReplaceAllLiteralString` returns the pattern of `escapeSequenceRegexp` matches
nowhere, so removing the escape sequences once more returns it unchanged; this
holds of the stored visible text after every `Render` that got a text from the
template and returned. -/
theorem C19_stripping_idempotent (s : GoString) :
    matchFree (ReplaceAllLiteralString s) = true
    ∧ ReplaceAllLiteralString (ReplaceAllLiteralString s) = ReplaceAllLiteralString s
    ∧ (∀ (tbl : GraphicTable) (bar : StatusBar α) (w : Writer) (st : α) (out : GoString),
        bar.status = some st → bar.format st = .ok out → (bar.Render tbl w).result ≠ .panic →
        ReplaceAllLiteralString (bar.Render tbl w).bar.last = (bar.Render tbl w).bar.last) := by
  refine ⟨ReplaceAll_matchFree s, ReplaceAll_idempotent s, ?_⟩
  intro tbl bar w st out hst hfmt hret
  obtain ⟨text, _, htext⟩ := text_of_returning tbl bar w st out hst hfmt hret
  rw [(Render_text_summary tbl bar w st out text hst hfmt htext).2.2.2]
  exact ReplaceAll_idempotent _

/-- C19 on an example: in `ESC m ESC [0m x` only the second `ESC` begins an escape
sequence; without it the text is `ESC m x`, where the pattern matches nowhere. -/
theorem C19_stripping_idempotent_witness :
    ReplaceAllLiteralString (lit "\x1bm\x1b[0mx") = lit "\x1bmx"
    ∧ ReplaceAllLiteralString (lit "\x1bmx") = lit "\x1bmx"
    ∧ matchFree (lit "\x1bmx") = true := by
  have h := C19_stripping_idempotent (α := Unit) (lit "\x1bm\x1b[0mx")
  have h1 : ReplaceAllLiteralString (lit "\x1bm\x1b[0mx") = lit "\x1bmx" := by decide
  rw [h1] at h
  exact ⟨h1, h.2.1, h.1⟩

/-- C20 as stated fails. The byte `0xFF`, no valid UTF-8, rendered at width 0 is
stored with a carriage return; trimmed it is one byte and one code point, so the
two counts are equal on a text that is not pure ASCII. And the ASCII text
`redHelloWorld` is truncated at width 10, but the `Clear` that follows writes five
spaces, not ten. -/
theorem C20_counterexample :
    ((barShowing [0xFF] 0).Render exampleTable emptyWriter).bar.last = [0xFF, CR]
    ∧ TrimRight [0xFF, CR] blanks = [0xFF]
    ∧ (runes [0xFF]).length = ([0xFF] : GoString).length
    ∧ ¬ (∀ b ∈ ([0xFF] : GoString), b.val < 0x80)
    ∧ (∀ b ∈ redHelloWorld, b.val < 0x80)
    ∧ ((barShowing redHelloWorld 10).Render exampleTable emptyWriter).writer.written
        = lit "\x1b[31mHE…\r"
    ∧ (((barShowing redHelloWorld 10).Render exampleTable emptyWriter).bar.Clear emptyWriter).2.written
        = [SP, SP, SP, SP, SP, CR] := by
  decide

/-- C20, amended: `Clear` never under-erases. The number of spaces `Clear` writes,
the byte length of the stored visible text with trailing spaces, carriage returns
and tabs trimmed, is at least the number of code points of that trimmed text; the
two are equal when the trimmed text is pure ASCII and, for trimmed text that is
valid UTF-8, only then. After a truncated render, at a width `w` of at least 3,
of ASCII text without `ESC`, the text written has `w - 2` code points and `Clear`
writes `w` spaces. -/
theorem C20_clear_never_under_erases (tbl : GraphicTable) (bar : StatusBar α) (w : Writer)
    (st : α) (s : GoString) (hst : bar.status = some st) (hfmt : bar.format st = .ok s)
    (hascii : ∀ b ∈ s, b.val < 0x80) (hesc : ESC ∉ s)
    (hw : 3 ≤ bar.width) (hg : bar.width < (graphicLength tbl s : Int))
    (hacc : w.failure = none) :
    (∀ (b : StatusBar α) (v : Writer), v.failure = none →
      (b.Clear v).2.written
          = v.written ++ (List.replicate (TrimRight b.last blanks).length SP ++ [CR])
      ∧ (runes (TrimRight b.last blanks)).length ≤ (TrimRight b.last blanks).length
      ∧ ((∀ x ∈ TrimRight b.last blanks, x.val < 0x80) →
          (runes (TrimRight b.last blanks)).length = (TrimRight b.last blanks).length)
      ∧ (ValidString (TrimRight b.last blanks) = true →
          (runes (TrimRight b.last blanks)).length = (TrimRight b.last blanks).length →
          ∀ x ∈ TrimRight b.last blanks, x.val < 0x80))
    ∧ (bar.Render tbl w).result = .ok
    ∧ (∃ text, (bar.Render tbl w).writer.written = w.written ++ (text ++ [CR])
        ∧ ((runes text).length : Int) = bar.width - 2)
    ∧ ((bar.Render tbl w).bar.Clear (bar.Render tbl w).writer).2.written
        = (bar.Render tbl w).writer.written ++ (List.replicate bar.width.toNat SP ++ [CR]) := by
  refine ⟨fun b v hv => ⟨(Clear_accepting b v hv).1, runes_length_le _,
    runes_length_ascii _, ascii_of_valid _⟩, ?_⟩
  have hle := graphicLength_le_runes tbl s
  have hlen := runes_length_ascii s hascii
  have htext : (if bar.width > 0 ∧ (graphicLength tbl s : Int) > bar.width then
      trimTo s bar.width else some s)
      = some (encodeRunes ((runes s).take (bar.width - 3).toNat) ++ ellipsis) := by
    rw [if_pos ⟨by omega, hg⟩]
    exact trimTo_of_wide tbl s bar.width hw hg
  obtain ⟨h1, h2, _, h4⟩ := Render_text_summary tbl bar w st s _ hst hfmt htext
  obtain ⟨_, hwr, _⟩ := Render_of_text tbl bar w st s _ hst hfmt htext
  have hok := h1 hacc
  have hkept : encodeRunes ((runes s).take (bar.width - 3).toNat)
      = s.take (bar.width - 3).toNat := by
    unfold runes
    rw [runesFrom_ascii s hascii, ← List.map_take]
    exact encodeRunes_ascii _ (fun b hb => hascii b (List.mem_of_mem_take hb))
  have hnoesc : ESC ∉ s.take (bar.width - 3).toNat ++ ellipsis ++ [CR] := by
    intro hm
    rcases List.mem_append.mp hm with hm | hm
    · rcases List.mem_append.mp hm with hm | hm
      · exact hesc (List.mem_of_mem_take hm)
      · revert hm; decide
    · revert hm; decide
  have hlast : (bar.Render tbl w).bar.last
      = s.take (bar.width - 3).toNat ++ ellipsis ++ [CR] := by
    rw [h4, hkept]
    exact ReplaceAll_of_no_ESC _ hnoesc
  have hfail : (bar.Render tbl w).writer.failure = none := by
    rw [hwr, Write_accepting w _ hacc]; exact hacc
  refine ⟨hok, ⟨_, h2 hok, ?_⟩, ?_⟩
  · rw [runes_truncation]
    simp only [List.length_append, List.length_take, List.length_singleton]
    omega
  · rw [(Clear_accepting _ _ hfail).1, hlast, TrimRight_ellipsis_CR]
    have hn : (s.take (bar.width - 3).toNat ++ ellipsis).length = bar.width.toNat := by
      simp only [List.length_append, List.length_take, ellipsis, List.length_cons,
        List.length_nil]
      omega
    rw [hn]

/-- Witness of C20, amended: `HELLOWORLD` at width 6 is written as `HEL` and the
ellipsis, four code points, and the `Clear` that follows writes six spaces. -/
theorem C20_clear_never_under_erases_witness :
    ((barShowing (lit "HELLOWORLD") 6).Render exampleTable emptyWriter).writer.written
        = lit "HEL…\r"
    ∧ (((barShowing (lit "HELLOWORLD") 6).Render exampleTable emptyWriter).bar.Clear
          ((barShowing (lit "HELLOWORLD") 6).Render exampleTable emptyWriter).writer).2.written
        = lit "HEL…\r" ++ [SP, SP, SP, SP, SP, SP, CR] := by
  have h := C20_clear_never_under_erases exampleTable (barShowing (lit "HELLOWORLD") 6)
    emptyWriter () (lit "HELLOWORLD") rfl rfl (by decide) (by decide) (by decide) (by decide) rfl
  refine ⟨by decide, ?_⟩
  rw [h.2.2.2]
  decide

end Claims

end Barely
